import Mathlib

/-!
Verification of the excalibur-jerky storefront's inventory/cart logic.

The development shallowly embeds the TypeScript source:
* `src/contexts/CartContext.tsx` — cart store (`addItem`, `removeItem`,
  `updateQuantity`, `recalculateMaxQuantities`, `validateCart`);
* `src/components/ProductAddToCart.tsx` — the per-variant allocation
  calculator;
* `src/lib/stripe/products.ts` — `extractBaseUnits`, inventory derivation
  from the `stock` metadata field, `decrementInventory`;
* `src/sanity/lib/products.ts` — `getMergedProducts` merge step;
* `src/app/api/webhooks/stripe/route.ts` — webhook `POST` status logic.

JavaScript numbers are modelled as `Int` (all the embedded code paths do
integer arithmetic); `Math.floor(a / b)` for an integer `a` and positive
integer `b` is `Int.fdiv`; `null`/`undefined` become `Option`.
-/

namespace ExJerky

/-- Models JavaScript `Math.floor(a / b)` on integers with a positive
divisor: floor division, i.e. `Int.fdiv`. -/
def jsFloorDiv (a b : Int) : Int := Int.fdiv a b

/-- Models JavaScript `Number.parseInt(s, 10)`: skip leading whitespace,
optional sign, then the longest digit prefix; `none` models `NaN`. -/
def parseIntJS (s : String) : Option Int :=
  let cs := s.toList.dropWhile Char.isWhitespace
  let signedTail : Int × List Char :=
    match cs with
    | '-' :: r => (-1, r)
    | '+' :: r => (1, r)
    | r => (1, r)
  let ds := signedTail.2.takeWhile Char.isDigit
  if ds.isEmpty then none
  else some (signedTail.1 * Int.ofNat (ds.foldl (fun n c => n * 10 + (c.toNat - 48)) 0))

/-- Models JavaScript `String.prototype.toLowerCase` (ASCII, as used by the
source's size nicknames). -/
def jsToLower (s : String) : String := String.mk (s.toList.map Char.toLower)

/-- Models JavaScript `String.prototype.trim`. -/
def jsTrim (s : String) : String :=
  String.mk (((s.toList.dropWhile Char.isWhitespace).reverse.dropWhile Char.isWhitespace).reverse)

/-- Models JavaScript `String.prototype.includes`: substring test. -/
def strContains (s pat : String) : Bool :=
  s.toList.tails.any (fun t => pat.toList.isPrefixOf t)

/-- Models JavaScript `a || b` on optional strings (empty string is falsy). -/
def jsOrStr (a b : Option String) : Option String :=
  match a with
  | some s => if s = "" then b else some s
  | none => b

/-- Nickname pattern-match fallback of `extractBaseUnits`
(`src/lib/stripe/products.ts`): lower-case and trim the nickname, then test
known size labels in order; default 1.  A `none` or empty nickname is falsy
in the JS guard `if (nickname)`. -/
def nicknameBaseUnits (nickname : Option String) : Int :=
  match nickname with
  | none => 1
  | some nk =>
    if nk = "" then 1
    else
      let l := jsTrim (jsToLower nk)
      if strContains l "1 lb" || strContains l "1lb" then 4
      else if strContains l "12oz" || strContains l "12 oz" then 3
      else if strContains l "8oz" || strContains l "8 oz" then 2
      else if strContains l "4oz" || strContains l "4 oz" then 1
      else 1

/-- `extractBaseUnits(price, nickname)` from `src/lib/stripe/products.ts`:
if `price.metadata.base_units` is truthy (present, non-empty) and parses to
a positive integer, return it; otherwise fall back to the nickname
pattern-match. -/
def extractBaseUnits (baseUnitsMeta nickname : Option String) : Int :=
  match baseUnitsMeta with
  | some s =>
    if s = "" then nicknameBaseUnits nickname
    else
      match parseIntJS s with
      | some n => if 0 < n then n else nicknameBaseUnits nickname
      | none => nicknameBaseUnits nickname
  | none => nicknameBaseUnits nickname

/-- A cart line item, `CartItem` from `src/contexts/CartContext.tsx`.
Quantities and base units are JS numbers used as integers, modelled as
`Int`; `maxQuantity?: number | null` and `totalInventory?: number | null`
become `Option Int`.  The floating-point display field `price` is carried
by no embedded logic and is omitted. -/
structure CartItem where
  id : String
  productId : String
  priceId : String
  name : String
  sizeNickname : String
  quantity : Int
  baseUnits : Int
  maxQuantity : Option Int
  totalInventory : Option Int
  imageUrl : Option String
deriving DecidableEq

/-- One entry of the `prices` array handed to `validateCart`. -/
structure ValPrice where
  priceId : String
  baseUnits : Int
deriving DecidableEq

/-- One authoritative product record handed to `validateCart`
(`src/contexts/CartContext.tsx`); `sanityId` models the `_id` field,
`invQuantity` models `inventory.quantity`. -/
structure ValProduct where
  sanityId : String
  stripeProductId : String
  prices : Option (List ValPrice)
  invQuantity : Option Int
  available : Bool
  primaryImageUrl : Option String
deriving DecidableEq

/-- `i.baseUnits * i.quantity`, the summand of every usage reduce in the
cart code. -/
def itemUsage (i : CartItem) : Int := i.baseUnits * i.quantity

/-- `prev.filter(i => i.productId === pid).reduce((sum, i) => sum + i.baseUnits * i.quantity, 0)`. -/
def usedByProduct (items : List CartItem) (pid : String) : Int :=
  ((items.filter (fun i => i.productId == pid)).map itemUsage).sum

/-- `items.filter(i => i.productId === pid && i.id !== excludeId).reduce(...)`,
the usage committed to the product by all other cart lines. -/
def usedByOthers (items : List CartItem) (pid excludeId : String) : Int :=
  ((items.filter (fun i => i.productId == pid && i.id != excludeId)).map itemUsage).sum

/-- The `productInventory` map (product id → tracked total base units),
as an association list with distinct keys. -/
def lookupInv (m : List (String × Int)) (k : String) : Option Int :=
  (m.find? (fun e => e.fst == k)).map (fun e => e.snd)

/-- `if (!productInventory.has(k)) productInventory.set(k, v)`. -/
def insertIfAbsent (m : List (String × Int)) (k : String) (v : Int) : List (String × Int) :=
  match lookupInv m k with
  | some _ => m
  | none => (k, v) :: m

/-- Cart store state: the line items plus the tracked per-product inventory
map. -/
structure CartState where
  items : List CartItem
  productInventory : List (String × Int)
deriving DecidableEq

/-- The empty cart. -/
def emptyCart : CartState := { items := [], productInventory := [] }

/-- `recalculateMaxQuantities` from `src/contexts/CartContext.tsx`: for each
item whose product is in the supplied inventory map, recompute the cached
`maxQuantity` as `floor((totalAvailable - usedByOthers) / baseUnits)`,
clamped to 0 from below (`maxForThisItem > 0 ? maxForThisItem : 0`). -/
def recalculateMaxQuantities (items : List CartItem) (availableInventory : List (String × Int)) :
    List CartItem :=
  items.map (fun item =>
    match lookupInv availableInventory item.productId with
    | none => item
    | some totalAvailable =>
      let used := usedByOthers items item.productId item.id
      let remainingBaseUnits := totalAvailable - used
      let maxForThisItem := jsFloorDiv remainingBaseUnits item.baseUnits
      { item with maxQuantity := some (if 0 < maxForThisItem then maxForThisItem else 0) })

/-- `addItem` from `src/contexts/CartContext.tsx`.  The incoming item's
`totalInventory` is recorded for its product if the product is not yet
tracked; an existing line (same `id`) has its quantity increased, clamped by
`floor((totalAvailable - totalUsedByProduct) / baseUnits)`; a new line is
appended with quantity clamped likewise; when the product is untracked the
JS arithmetic goes through `Infinity` and imposes no clamp.  Finally the
cached maxima of the product's lines are recalculated. -/
def addItem (s : CartState) (item : CartItem) : CartState :=
  let inv :=
    match item.totalInventory with
    | some t => insertIfAbsent s.productInventory item.productId t
    | none => s.productInventory
  let prev := s.items
  let updatedItems :=
    match prev.find? (fun i => i.id == item.id) with
    | some existing =>
      let totalUsedByProduct := usedByProduct prev item.productId
      let newQuantity :=
        match lookupInv inv item.productId with
        | some totalAvailable =>
          let canAddBaseUnits := jsFloorDiv (totalAvailable - totalUsedByProduct) item.baseUnits
          min (existing.quantity + item.quantity) (existing.quantity + canAddBaseUnits)
        | none => existing.quantity + item.quantity
      prev.map (fun i => if i.id == item.id then { i with quantity := newQuantity } else i)
    | none =>
      let totalUsedByProduct := usedByProduct prev item.productId
      let actualQuantity :=
        match lookupInv inv item.productId with
        | some totalAvailable =>
          min item.quantity (jsFloorDiv (totalAvailable - totalUsedByProduct) item.baseUnits)
        | none => item.quantity
      prev ++ [{ item with quantity := actualQuantity }]
  match lookupInv inv item.productId with
  | some totalAvailable =>
    { items := recalculateMaxQuantities updatedItems [(item.productId, totalAvailable)]
    , productInventory := inv }
  | none => { items := updatedItems, productInventory := inv }

/-- `removeItem` from `src/contexts/CartContext.tsx`: drop the line and
recalculate the cached maxima of the removed line's product. -/
def removeItem (s : CartState) (id : String) : CartState :=
  let removedItem := s.items.find? (fun i => i.id == id)
  let updatedItems := s.items.filter (fun i => i.id != id)
  match removedItem with
  | some r =>
    match lookupInv s.productInventory r.productId with
    | some totalAvailable =>
      { s with items := recalculateMaxQuantities updatedItems [(r.productId, totalAvailable)] }
    | none => { s with items := updatedItems }
  | none => { s with items := updatedItems }

/-- `updateQuantity` from `src/contexts/CartContext.tsx`: a non-positive
quantity delegates to `removeItem`; otherwise the found line's quantity is
set to `min(quantity, floor((totalAvailable - usedByOthers) / baseUnits))`
(no clamp when the product is untracked), and cached maxima are
recalculated. -/
def updateQuantity (s : CartState) (id : String) (quantity : Int) : CartState :=
  if quantity ≤ 0 then removeItem s id
  else
    match s.items.find? (fun i => i.id == id) with
    | none => s
    | some item =>
      let used := usedByOthers s.items item.productId id
      let actualQuantity :=
        match lookupInv s.productInventory item.productId with
        | some totalAvailable =>
          min quantity (jsFloorDiv (totalAvailable - used) item.baseUnits)
        | none => quantity
      let updatedItems :=
        s.items.map (fun i => if i.id == id then { i with quantity := actualQuantity } else i)
      match lookupInv s.productInventory item.productId with
      | some totalAvailable =>
        { s with items := recalculateMaxQuantities updatedItems [(item.productId, totalAvailable)] }
      | none => { s with items := updatedItems }

/-- Lookup in a JS `Map` built with `new Map(list.map(p => [key p, p]))`:
for duplicate keys the later entry wins, hence the reverse search. -/
def mapGetBy (ps : List ValProduct) (key : ValProduct → String) (k : String) : Option ValProduct :=
  ps.reverse.find? (fun p => key p == k)

/-- `productMapBySanityId.get(pid) || productMapByStripeId.get(pid)` in
`validateCart`. -/
def findProduct (ps : List ValProduct) (pid : String) : Option ValProduct :=
  match mapGetBy ps (fun p => p.sanityId) pid with
  | some p => some p
  | none => mapGetBy ps (fun p => p.stripeProductId) pid

/-- `product.prices?.some(p => p.priceId === cartItem.priceId) ?? false`. -/
def priceExistsFor (product : ValProduct) (priceId : String) : Bool :=
  match product.prices with
  | some l => l.any (fun p => p.priceId == priceId)
  | none => false

/-- First pass of `validateCart`: keep a line iff its product is found,
available, and still lists the line's price variant. -/
def validKeep (ps : List ValProduct) (cartItem : CartItem) : Bool :=
  match findProduct ps cartItem.productId with
  | none => false
  | some product => product.available && priceExistsFor product cartItem.priceId

/-- The display label pushed into notifications:
`` `${cartItem.name} (${cartItem.sizeNickname})` ``. -/
def itemLabel (cartItem : CartItem) : String :=
  cartItem.name ++ " (" ++ cartItem.sizeNickname ++ ")"

/-- Second pass of `validateCart`, per line: returns the updated line (or
`none` when dropped), an optional removed-notification label, and an
optional adjusted notification `(label, from, to)`.  `validatedItems` is
the whole output of the first pass, against which sibling usage is
computed.  The unused local `totalBaseUnitsInCart` of the source is dead
code and omitted. -/
def adjustFull (ps : List ValProduct) (validatedItems : List CartItem) (cartItem : CartItem) :
    Option CartItem × Option String × Option (String × Int × Int) :=
  match findProduct ps cartItem.productId with
  | none => (some cartItem, none, none)
  | some product =>
    let updatedImageUrl := jsOrStr cartItem.imageUrl product.primaryImageUrl
    match product.invQuantity with
    | none => (some { cartItem with maxQuantity := none, imageUrl := updatedImageUrl }, none, none)
    | some availableBaseUnits =>
      let baseUnitsUsedByOthers := usedByOthers validatedItems cartItem.productId cartItem.id
      let remainingBaseUnits := max 0 (availableBaseUnits - baseUnitsUsedByOthers)
      let maxQty := jsFloorDiv remainingBaseUnits cartItem.baseUnits
      if maxQty < cartItem.quantity then
        if maxQty = 0 then (none, some (itemLabel cartItem), none)
        else
          (some { cartItem with quantity := maxQty, maxQuantity := some maxQty,
                                imageUrl := updatedImageUrl },
           none, some (itemLabel cartItem, cartItem.quantity, maxQty))
      else (some { cartItem with maxQuantity := some maxQty, imageUrl := updatedImageUrl }, none, none)

/-- Items plus the batched notifications produced by one `validateCart`
run. -/
structure ValidateResult where
  items : List CartItem
  removed : List String
  adjusted : List (String × Int × Int)
deriving DecidableEq

/-- `validateCart` from `src/contexts/CartContext.tsx`: filter out lines
whose product is gone, unavailable or no longer lists the variant (each
recorded as removed), then clamp or drop lines that exceed their freshly
recomputed maximum, collecting removed and adjusted notifications. -/
def validateCart (ps : List ValProduct) (prev : List CartItem) : ValidateResult :=
  let validatedItems := prev.filter (validKeep ps)
  let removedFirstPass := (prev.filter (fun c => !(validKeep ps c))).map itemLabel
  let results := validatedItems.map (adjustFull ps validatedItems)
  { items := results.filterMap (fun r => r.1)
  , removed := removedFirstPass ++ results.filterMap (fun r => r.2.1)
  , adjusted := results.filterMap (fun r => r.2.2) }

/-- Just the resulting cart line items of a `validateCart` run. -/
def validateItems (ps : List ValProduct) (prev : List CartItem) : List CartItem :=
  (validateCart ps prev).items

/-- One call against the cart store. -/
inductive CartOp where
  | add (item : CartItem)
  | remove (id : String)
  | update (id : String) (quantity : Int)
  | validate (ps : List ValProduct)

/-- Apply one call to the cart state (`validateCart` leaves the tracked
inventory map untouched — the source never updates `productInventory`
there). -/
def applyOp (s : CartState) (op : CartOp) : CartState :=
  match op with
  | .add item => addItem s item
  | .remove id => removeItem s id
  | .update id quantity => updateQuantity s id quantity
  | .validate ps => { s with items := validateItems ps s.items }

/-- Run a sequence of calls from the empty cart. -/
def runOps (ops : List CartOp) : CartState := ops.foldl applyOp emptyCart

/-- The per-variant allocation calculator of `ProductAddToCart`
(`src/components/ProductAddToCart.tsx`):
`remainingBaseUnits = max(0, totalAvailable - usedByOthers)` when the pool
is finite, and `maxQuantity = floor(remainingBaseUnits / baseUnits)`;
an unlimited (`null`) pool yields no cap (`null`). -/
def allocMaxQuantity (totalAvailableBaseUnits : Option Int)
    (baseUnitsUsedByOthers candidateBaseUnits : Int) : Option Int :=
  match totalAvailableBaseUnits with
  | none => none
  | some t => some (jsFloorDiv (max 0 (t - baseUnitsUsedByOthers)) candidateBaseUnits)

/-- The allocation calculator as instantiated in the component: sibling
usage is taken from the cart items. -/
def allocMaxQuantityInCart (totalAvailableBaseUnits : Option Int) (items : List CartItem)
    (productId cartItemId : String) (candidateBaseUnits : Int) : Option Int :=
  allocMaxQuantity totalAvailableBaseUnits (usedByOthers items productId cartItemId)
    candidateBaseUnits

/-- A JS inventory quantity as produced by `getStripeProducts`
(`src/lib/stripe/products.ts`): `null` when the `stock` metadata field is
absent, `NaN` when present but unparsable, a number otherwise. -/
inductive InvQty where
  | null
  | nan
  | num (n : Int)
deriving DecidableEq

/-- Inventory derivation of `getStripeProducts`/`getStripeProduct`: when
`product.metadata.stock` is absent (`typeof ... === "undefined"`), the
product reports `{ quantity: null, available: false }`; when present, the
parsed value with `available = qty > 0` (false for `NaN`). -/
def stripeInventory (stockMeta : Option String) : InvQty × Bool :=
  match stockMeta with
  | none => (InvQty.null, false)
  | some s =>
    match parseIntJS s with
    | some qty => (InvQty.num qty, decide (0 < qty))
    | none => (InvQty.nan, false)

/-- The new stock written back by `updateStripeInventory` and the value
returned to the caller of `decrementInventory`; `none` models a `NaN`
result from an unparsable stored stock string. -/
structure DecrementOutcome where
  stored : Option Int
  returned : Option Int
deriving DecidableEq

/-- `decrementInventory` from `src/lib/stripe/products.ts`: the price's
base-unit multiplier comes from `extractBaseUnits`; the current stock is
`parseInt(product.metadata.stock)` when the field is defined, else 0; the
new stock is `max(0, current - quantity * baseUnits)`, stored via
`updateStripeInventory` and returned. -/
def decrementInventory (stockMeta baseUnitsMeta nickname : Option String)
    (quantity : Int) : DecrementOutcome :=
  let baseUnits := extractBaseUnits baseUnitsMeta nickname
  let currentQuantity : Option Int :=
    match stockMeta with
    | some s => parseIntJS s
    | none => some 0
  let decrementBy := quantity * baseUnits
  let newQuantity := currentQuantity.map (fun cur => max 0 (cur - decrementBy))
  { stored := newQuantity, returned := newQuantity }

/-- A price variant as fetched live from the vendor (Square variation). -/
structure SquarePrice where
  variationId : String
  nickname : Option String
  amount : Int
  baseUnits : Int
deriving DecidableEq

/-- A vendor (Square) product as consumed by `getMergedProducts`
(`src/sanity/lib/products.ts`): live prices, images and inventory. -/
structure SquareProduct where
  id : String
  name : String
  description : Option String
  prices : List SquarePrice
  images : List String
  invQuantity : Option Int
  available : Bool
deriving DecidableEq

/-- A price variant as cached in the CMS (`SanityPriceVariant`). -/
structure SanityPriceVariant where
  priceId : String
  nickname : Option String
  amount : Int
  baseUnits : Int
deriving DecidableEq

/-- A CMS (Sanity) product record (`SanityProduct`); `sanityId` models
`_id`.  The rich-text `description`, `primaryImage` and `additionalImages`
payloads are opaque to the merge and modelled as blobs. -/
structure SanityProduct where
  sanityId : String
  stripeProductId : String
  prices : List SanityPriceVariant
  name : String
  subtitle : Option String
  description : Option String
  primaryImage : Option String
  additionalImages : Option String
  isFeatured : Bool
deriving DecidableEq

/-- The primary image of a merged entry: either the CMS image record or a
`{ url, alt }` object built from the vendor's first image URL. -/
inductive MergedImage where
  | sanityImage (blob : String)
  | urlImage (url alt : String)
deriving DecidableEq

/-- A merged catalog entry (`MergedProduct`).  The floating-point display
`price` and `currentlyDiscounted` fields are omitted (no embedded logic
reads them); `fromSanity` models `source === "sanity"`. -/
structure MergedProduct where
  sanityId : String
  stripeProductId : String
  prices : List SanityPriceVariant
  name : String
  subtitle : Option String
  description : Option String
  primaryImage : Option MergedImage
  additionalImages : Option String
  stripeImages : List String
  isFeatured : Bool
  invQuantity : Option Int
  available : Bool
  fromSanity : Bool
deriving DecidableEq

/-- The per-product merge step of `getMergedProducts`
(`src/sanity/lib/products.ts`): look the vendor product's id up in the map
of CMS records keyed by `stripeProductId` (later duplicates win, hence the
reverse search).  If found, editorial fields and the cached `prices` come
from the CMS record while inventory (and the image-fallback list) come
from the vendor; otherwise the entry is built from vendor data with the
synthesized id `square-<vendor id>` and `isFeatured = false`. -/
def mergeSquareProduct (sanityProducts : List SanityProduct) (squareProduct : SquareProduct) :
    MergedProduct :=
  match sanityProducts.reverse.find? (fun p => p.stripeProductId == squareProduct.id) with
  | some sanityProduct =>
    { sanityId := sanityProduct.sanityId
    , stripeProductId := squareProduct.id
    , prices := sanityProduct.prices
    , name := sanityProduct.name
    , subtitle := sanityProduct.subtitle
    , description := sanityProduct.description
    , primaryImage := sanityProduct.primaryImage.map MergedImage.sanityImage
    , additionalImages := sanityProduct.additionalImages
    , stripeImages := squareProduct.images
    , isFeatured := sanityProduct.isFeatured
    , invQuantity := squareProduct.invQuantity
    , available := squareProduct.available
    , fromSanity := true }
  | none =>
    { sanityId := "square-" ++ squareProduct.id
    , stripeProductId := squareProduct.id
    , prices := squareProduct.prices.map (fun p =>
        { priceId := p.variationId, nickname := p.nickname, amount := p.amount,
          baseUnits := p.baseUnits })
    , name := squareProduct.name
    , subtitle := jsOrStr squareProduct.description none
    , description := none
    , primaryImage := squareProduct.images.head?.map
        (fun u => MergedImage.urlImage u squareProduct.name)
    , additionalImages := none
    , stripeImages := squareProduct.images.drop 1
    , isFeatured := false
    , invQuantity := squareProduct.invQuantity
    , available := squareProduct.available
    , fromSanity := false }

/-- The merge over the whole vendor catalog, before the final
featured-then-name sort (the sort permutes entries and changes no entry's
content). -/
def getMergedProductsUnsorted (squareProducts : List SquareProduct)
    (sanityProducts : List SanityProduct) : List MergedProduct :=
  squareProducts.map (mergeSquareProduct sanityProducts)

/-- The event types dispatched by the webhook `POST` handler
(`src/app/api/webhooks/stripe/route.ts`). -/
inductive StripeEventType where
  | checkoutSessionCompleted
  | paymentIntentSucceeded
  | paymentIntentPaymentFailed
  | productCreated
  | productUpdated
  | productDeleted
  | priceCreatedOrUpdated
  | unhandled
deriving DecidableEq

/-- Outcome of dispatching one verified event.  The product/price handlers
and the payment handlers wrap their entire bodies in `try`/`catch` and
swallow errors; `handleCheckoutSessionCompleted` guards its inventory
decrements and its email sending, but its initial
`stripe.checkout.sessions.retrieve` call is outside every `try`, so only
that failure (`sessionRetrieve`) escapes to the route's outer catch. -/
def processEvent (ev : StripeEventType) (sessionRetrieve : Except String Unit) :
    Except String Unit :=
  match ev with
  | .checkoutSessionCompleted => sessionRetrieve
  | _ => Except.ok ()

/-- The webhook `POST` handler's response status: 400 when the
`stripe-signature` header is missing, 500 when `STRIPE_WEBHOOK_SECRET` is
unset, 400 when `constructEvent` rejects the signature, then 200 when the
event dispatch returns and 500 when it throws. -/
def webhookPOST (signature : Option String) (webhookSecret : Option String)
    (verifyOk : Bool) (ev : StripeEventType) (sessionRetrieve : Except String Unit) : Nat :=
  match signature with
  | none => 400
  | some _ =>
    match webhookSecret with
    | none => 500
    | some _ =>
      if !verifyOk then 400
      else
        match processEvent ev sessionRetrieve with
        | .ok _ => 200
        | .error _ => 500

/-- A convenient line-item constructor for concrete scenarios. -/
def mkItem (id productId priceId : String) (quantity baseUnits : Int)
    (totalInventory : Option Int) : CartItem :=
  { id := id, productId := productId, priceId := priceId, name := "Jerky",
    sizeNickname := "sz", quantity := quantity, baseUnits := baseUnits,
    maxQuantity := none, totalInventory := totalInventory, imageUrl := none }

/-- Pools assign a fixed total of base units (or unlimited) to each product;
finite pools are nonnegative. -/
def PoolsOK (pools : String → Option Int) : Prop :=
  ∀ pid t, pools pid = some t → 0 ≤ t

/-- A call is consistent with the fixed catalog: each added line reports its
product's pool as `totalInventory`, has nonnegative quantity, and carries
the product id and base-unit multiplier (≥ 1) determined by its line id
(line ids are `productId-priceId`, so an id fixes both). -/
def ConsistentOp (pools : String → Option Int) (idProd : String → String)
    (idBase : String → Int) : CartOp → Prop
  | .add item =>
      item.totalInventory = pools item.productId ∧ 1 ≤ item.baseUnits ∧
      0 ≤ item.quantity ∧ item.productId = idProd item.id ∧ item.baseUnits = idBase item.id
  | _ => True

/-- The cart-store invariant carried through every call: line multipliers
are positive and quantities nonnegative; line ids are distinct and
determine product and multiplier; the tracked inventory map agrees with the
pools; every line of a finite-pool product is tracked; and tracked usage
never exceeds the tracked pool. -/
def CartInvariant (pools : String → Option Int) (idProd : String → String)
    (idBase : String → Int) (s : CartState) : Prop :=
  (∀ i ∈ s.items, 1 ≤ i.baseUnits ∧ 0 ≤ i.quantity) ∧
  (s.items.map (fun i => i.id)).Nodup ∧
  (∀ i ∈ s.items, i.productId = idProd i.id ∧ i.baseUnits = idBase i.id) ∧
  (∀ pid T, lookupInv s.productInventory pid = some T → pools pid = some T) ∧
  (∀ i ∈ s.items, ∀ t, pools i.productId = some t →
    lookupInv s.productInventory i.productId = some t) ∧
  (∀ pid T, lookupInv s.productInventory pid = some T → usedByProduct s.items pid ≤ T)

theorem jsFloorDiv_mul_le (a : Int) {b : Int} (hb : 0 < b) : jsFloorDiv a b * b ≤ a := by
  rw [jsFloorDiv, Int.fdiv_eq_ediv a (Int.le_of_lt hb)]
  exact Int.ediv_mul_le a (Int.ne_of_gt hb)

theorem jsFloorDiv_mono {a c b : Int} (hb : 0 < b) (h : a ≤ c) :
    jsFloorDiv a b ≤ jsFloorDiv c b := by
  rw [jsFloorDiv, jsFloorDiv, Int.fdiv_eq_ediv a (Int.le_of_lt hb),
    Int.fdiv_eq_ediv c (Int.le_of_lt hb)]
  exact Int.ediv_le_ediv hb h

theorem jsFloorDiv_nonneg {a b : Int} (ha : 0 ≤ a) (hb : 0 ≤ b) : 0 ≤ jsFloorDiv a b := by
  rw [jsFloorDiv]
  exact Int.fdiv_nonneg ha hb

theorem usedByProduct_nil (pid : String) : usedByProduct [] pid = 0 := rfl

theorem usedByProduct_cons (i : CartItem) (l : List CartItem) (pid : String) :
    usedByProduct (i :: l) pid =
      (if i.productId == pid then itemUsage i else 0) + usedByProduct l pid := by
  by_cases h : i.productId == pid <;>
    simp [usedByProduct, List.filter_cons, h]

theorem usedByOthers_nil (pid excl : String) : usedByOthers [] pid excl = 0 := rfl

theorem usedByOthers_cons (i : CartItem) (l : List CartItem) (pid excl : String) :
    usedByOthers (i :: l) pid excl =
      (if i.productId == pid && i.id != excl then itemUsage i else 0) +
        usedByOthers l pid excl := by
  by_cases h : (i.productId == pid && i.id != excl) <;>
    simp [usedByOthers, List.filter_cons, h]

theorem usedByProduct_append (l₁ l₂ : List CartItem) (pid : String) :
    usedByProduct (l₁ ++ l₂) pid = usedByProduct l₁ pid + usedByProduct l₂ pid := by
  induction l₁ with
  | nil => simp [usedByProduct_nil]
  | cons i t ih =>
    rw [List.cons_append, usedByProduct_cons, usedByProduct_cons, ih]
    ring

/-- The fields of a line item that the usage sums and the cart invariant
read: id, product, multiplier, quantity. -/
def itemProj (i : CartItem) : String × String × Int × Int :=
  (i.id, i.productId, i.baseUnits, i.quantity)

theorem usedByProduct_eq_sum (l : List CartItem) (pid : String) :
    usedByProduct l pid =
      (l.map (fun c => if c.productId == pid then itemUsage c else 0)).sum := by
  induction l with
  | nil => simp [usedByProduct_nil]
  | cons i t ih => rw [usedByProduct_cons, List.map_cons, List.sum_cons, ih]

theorem usedByOthers_eq_sum (l : List CartItem) (pid excl : String) :
    usedByOthers l pid excl =
      (l.map (fun c => if c.productId == pid && c.id != excl then itemUsage c else 0)).sum := by
  induction l with
  | nil => simp [usedByOthers_nil]
  | cons i t ih => rw [usedByOthers_cons, List.map_cons, List.sum_cons, ih]

theorem sum_map_le_of_pointwise (w : CartItem → Int) (f : CartItem → Option CartItem)
    (l : List CartItem)
    (h : ∀ c ∈ l, (∀ c', f c = some c' → w c' ≤ w c) ∧ (f c = none → 0 ≤ w c)) :
    ((l.filterMap f).map w).sum ≤ (l.map w).sum := by
  induction l with
  | nil => simp
  | cons i t ih =>
    have hi := h i (List.mem_cons_self i t)
    have ht := ih (fun c hc => h c (List.mem_cons_of_mem i hc))
    rcases hf : f i with _ | c'
    · have : 0 ≤ w i := hi.2 hf
      simp only [List.filterMap_cons, hf, List.map_cons, List.sum_cons]
      linarith
    · have : w c' ≤ w i := hi.1 c' hf
      simp only [List.filterMap_cons, hf, List.map_cons, List.sum_cons]
      linarith

theorem usedByProduct_proj_congr {l₁ l₂ : List CartItem}
    (h : l₁.map itemProj = l₂.map itemProj) (pid : String) :
    usedByProduct l₁ pid = usedByProduct l₂ pid := by
  induction l₁ generalizing l₂ with
  | nil =>
    cases l₂ with
    | nil => rfl
    | cons j t => simp at h
  | cons i t ih =>
    cases l₂ with
    | nil => simp at h
    | cons j u =>
      simp only [List.map_cons, List.cons.injEq] at h
      have h1 : i.productId = j.productId := by
        have := h.1
        simp [itemProj] at this
        exact this.2.1
      have h2 : itemUsage i = itemUsage j := by
        have := h.1
        simp [itemProj] at this
        rw [itemUsage, itemUsage, this.2.2.1, this.2.2.2]
      rw [usedByProduct_cons, usedByProduct_cons, h1, h2, ih h.2]

theorem usedByOthers_proj_congr {l₁ l₂ : List CartItem}
    (h : l₁.map itemProj = l₂.map itemProj) (pid excl : String) :
    usedByOthers l₁ pid excl = usedByOthers l₂ pid excl := by
  induction l₁ generalizing l₂ with
  | nil =>
    cases l₂ with
    | nil => rfl
    | cons j t => simp at h
  | cons i t ih =>
    cases l₂ with
    | nil => simp at h
    | cons j u =>
      simp only [List.map_cons, List.cons.injEq] at h
      have hid : i.id = j.id := by
        have := h.1
        simp [itemProj] at this
        exact this.1
      have h1 : i.productId = j.productId := by
        have := h.1
        simp [itemProj] at this
        exact this.2.1
      have h2 : itemUsage i = itemUsage j := by
        have := h.1
        simp [itemProj] at this
        rw [itemUsage, itemUsage, this.2.2.1, this.2.2.2]
      rw [usedByOthers_cons, usedByOthers_cons, h1, h2, hid, ih h.2]

theorem mem_proj_of_proj_eq {l₁ l₂ : List CartItem}
    (h : l₁.map itemProj = l₂.map itemProj) :
    ∀ i ∈ l₁, ∃ j ∈ l₂, itemProj i = itemProj j := by
  intro i hi
  have : itemProj i ∈ l₂.map itemProj := by
    rw [← h]
    exact List.mem_map_of_mem itemProj hi
  rcases List.mem_map.mp this with ⟨j, hj, hij⟩
  exact ⟨j, hj, hij.symm⟩

theorem ids_of_proj_eq {l₁ l₂ : List CartItem}
    (h : l₁.map itemProj = l₂.map itemProj) :
    l₁.map (fun i => i.id) = l₂.map (fun i => i.id) := by
  have h1 : ∀ l : List CartItem,
      l.map (fun i => i.id) = (l.map itemProj).map (fun x => x.1) := by
    intro l
    rw [List.map_map]
    rfl
  rw [h1, h1, h]

theorem recalc_proj (l : List CartItem) (m : List (String × Int)) :
    (recalculateMaxQuantities l m).map itemProj = l.map itemProj := by
  rw [recalculateMaxQuantities, List.map_map]
  apply List.map_congr_left
  intro i _
  rcases h : lookupInv m i.productId with _ | t <;>
    simp only [Function.comp_apply, h, itemProj]

theorem lookupInv_insertIfAbsent_cases {m : List (String × Int)} {k : String} {v : Int}
    {pid : String} {T : Int} (h : lookupInv (insertIfAbsent m k v) pid = some T) :
    lookupInv m pid = some T ∨ (pid = k ∧ T = v ∧ lookupInv m k = none) := by
  rw [insertIfAbsent] at h
  rcases hk : lookupInv m k with _ | w
  · rw [hk] at h
    by_cases hkp : k = pid
    · subst hkp
      rw [lookupInv, List.find?_cons] at h
      simp at h
      right
      exact ⟨rfl, h.symm, by simp [hk]⟩
    · rw [lookupInv, List.find?_cons] at h
      have hb : ((k, v).fst == pid) = false := beq_eq_false_iff_ne.mpr hkp
      simp only [hb] at h
      left
      exact h
  · rw [hk] at h
    left
    exact h

theorem lookupInv_insertIfAbsent_of_some {m : List (String × Int)} {k : String} {v : Int}
    {pid : String} {t : Int} (h : lookupInv m pid = some t) :
    lookupInv (insertIfAbsent m k v) pid = some t := by
  rw [insertIfAbsent]
  rcases hk : lookupInv m k with _ | w
  · rw [lookupInv, List.find?_cons]
    by_cases hkp : (k == pid)
    · exfalso
      rw [beq_iff_eq.mp hkp] at hk
      rw [hk] at h
      exact Option.noConfusion h
    · simp only [Bool.not_eq_true] at hkp
      simp only [hkp]
      exact h
  · exact h

theorem lookupInv_insertIfAbsent_self {m : List (String × Int)} {k : String} {v : Int} :
    lookupInv (insertIfAbsent m k v) k = some ((lookupInv m k).getD v) := by
  rw [insertIfAbsent]
  rcases hk : lookupInv m k with _ | w
  · rw [lookupInv, List.find?_cons]
    simp
  · simp [hk]

theorem usedByProduct_filter_le (p : CartItem → Bool) (l : List CartItem)
    (h : ∀ c ∈ l, 0 ≤ itemUsage c) (pid : String) :
    usedByProduct (l.filter p) pid ≤ usedByProduct l pid := by
  induction l with
  | nil => simp [usedByProduct_nil]
  | cons i t ih =>
    have hi := h i (List.mem_cons_self i t)
    have ht := ih (fun c hc => h c (List.mem_cons_of_mem i hc))
    have hif : 0 ≤ (if i.productId == pid then itemUsage i else 0) := by
      by_cases hp : (i.productId == pid) <;> simp [hp, hi]
    rw [List.filter_cons]
    by_cases hpi : p i
    · simp only [hpi, if_true]
      rw [usedByProduct_cons, usedByProduct_cons]
      linarith
    · simp only [hpi, Bool.false_eq_true, if_false]
      rw [usedByProduct_cons]
      linarith

theorem usedByOthers_all_ne (l : List CartItem) (pid excl : String)
    (h : ∀ i ∈ l, i.id ≠ excl) :
    usedByOthers l pid excl = usedByProduct l pid := by
  induction l with
  | nil => rfl
  | cons i t ih =>
    have hi : (i.id != excl) = true := bne_iff_ne.mpr (h i (List.mem_cons_self i t))
    rw [usedByOthers_cons, usedByProduct_cons, hi,
      ih (fun c hc => h c (List.mem_cons_of_mem i hc))]
    simp [Bool.and_true]

theorem map_setQuantity_of_not_mem (l : List CartItem) (tid : String) (q : Int)
    (h : ∀ i ∈ l, i.id ≠ tid) :
    l.map (fun i => if i.id == tid then { i with quantity := q } else i) = l := by
  induction l with
  | nil => rfl
  | cons i t ih =>
    have hb : (i.id == tid) = false := beq_eq_false_iff_ne.mpr (h i (List.mem_cons_self i t))
    rw [List.map_cons, ih (fun c hc => h c (List.mem_cons_of_mem i hc))]
    simp [hb]

theorem ids_map_setQuantity (l : List CartItem) (tid : String) (q : Int) :
    (l.map (fun i => if i.id == tid then { i with quantity := q } else i)).map
        (fun i => i.id) =
      l.map (fun i => i.id) := by
  rw [List.map_map]
  apply List.map_congr_left
  intro i _
  simp only [Function.comp_apply]
  split <;> rfl

theorem usedByProduct_map_setQuantity (l : List CartItem) {tid : String} (q : Int)
    {e : CartItem} (hfind : l.find? (fun i => i.id == tid) = some e)
    (hnd : (l.map (fun i => i.id)).Nodup) (pid : String) :
    usedByProduct (l.map (fun i => if i.id == tid then { i with quantity := q } else i)) pid =
      usedByProduct l pid +
        (if e.productId == pid then e.baseUnits * (q - e.quantity) else 0) := by
  induction l with
  | nil => simp at hfind
  | cons i t ih =>
    by_cases hit : (i.id == tid)
    · simp only [List.find?_cons, hit] at hfind
      have he : e = i := (Option.some.inj hfind).symm
      subst he
      have htid : e.id = tid := beq_iff_eq.mp hit
      have hnot : ∀ c ∈ t, c.id ≠ tid := by
        intro c hc hceq
        have hmem : e.id ∈ t.map (fun i => i.id) := by
          rw [htid, ← hceq]
          exact List.mem_map_of_mem _ hc
        exact (List.nodup_cons.mp hnd).1 hmem
      rw [List.map_cons, map_setQuantity_of_not_mem t tid q hnot]
      simp only [hit, if_true]
      rw [usedByProduct_cons, usedByProduct_cons]
      by_cases hp : (e.productId == pid) <;> simp [hp, itemUsage] <;> ring
    · have hitf : (i.id == tid) = false := Bool.eq_false_iff.mpr (fun hc => hit hc)
      simp only [List.find?_cons, hitf] at hfind
      have hnd' : (t.map (fun i => i.id)).Nodup := (List.nodup_cons.mp hnd).2
      rw [List.map_cons]
      simp only [hitf, Bool.false_eq_true, if_false]
      rw [usedByProduct_cons, usedByProduct_cons, ih hfind hnd']
      ring

theorem usedByOthers_find_eq (l : List CartItem) {tid : String} {e : CartItem}
    (hfind : l.find? (fun i => i.id == tid) = some e)
    (hnd : (l.map (fun i => i.id)).Nodup) (pid : String) :
    usedByOthers l pid tid =
      usedByProduct l pid - (if e.productId == pid then itemUsage e else 0) := by
  induction l with
  | nil => simp at hfind
  | cons i t ih =>
    by_cases hit : (i.id == tid)
    · simp only [List.find?_cons, hit] at hfind
      have he : e = i := (Option.some.inj hfind).symm
      subst he
      have htid : e.id = tid := beq_iff_eq.mp hit
      have hnot : ∀ c ∈ t, c.id ≠ tid := by
        intro c hc hceq
        have hmem : e.id ∈ t.map (fun i => i.id) := by
          rw [htid, ← hceq]
          exact List.mem_map_of_mem _ hc
        exact (List.nodup_cons.mp hnd).1 hmem
      have hne : (e.id != tid) = false := by
        simp [htid]
      rw [usedByOthers_cons, usedByProduct_cons, usedByOthers_all_ne t pid tid hnot, hne]
      by_cases hp : (e.productId == pid) <;> simp [hp] <;> ring
    · have hitf : (i.id == tid) = false := Bool.eq_false_iff.mpr (fun hc => hit hc)
      simp only [List.find?_cons, hitf] at hfind
      have hnd' : (t.map (fun i => i.id)).Nodup := (List.nodup_cons.mp hnd).2
      have hne : (i.id != tid) = true := by
        simp only [bne_iff_ne, ne_eq]
        intro hcc
        exact hit (beq_iff_eq.mpr hcc)
      rw [usedByOthers_cons, usedByProduct_cons, ih hfind hnd', hne]
      by_cases hp : (i.productId == pid) <;> simp [hp] <;> ring

theorem itemUsage_nonneg {i : CartItem} (hb : 1 ≤ i.baseUnits) (hq : 0 ≤ i.quantity) :
    0 ≤ itemUsage i :=
  mul_nonneg (le_trans zero_le_one hb) hq

theorem usedByProduct_zero_of_no_pid (l : List CartItem) (pid : String)
    (h : ∀ i ∈ l, i.productId ≠ pid) : usedByProduct l pid = 0 := by
  induction l with
  | nil => rfl
  | cons i t ih =>
    have hb : (i.productId == pid) = false :=
      beq_eq_false_iff_ne.mpr (h i (List.mem_cons_self i t))
    rw [usedByProduct_cons, hb, ih (fun c hc => h c (List.mem_cons_of_mem i hc))]
    simp

theorem ids_filterMap_sublist (f : CartItem → Option CartItem) (l : List CartItem)
    (hf : ∀ c c', f c = some c' → c'.id = c.id) :
    ((l.filterMap f).map (fun i => i.id)).Sublist (l.map (fun i => i.id)) := by
  induction l with
  | nil => simp
  | cons i t ih =>
    rcases hfi : f i with _ | c'
    · simp only [List.filterMap_cons, hfi, List.map_cons]
      exact (ih).cons i.id
    · simp only [List.filterMap_cons, hfi, List.map_cons]
      rw [hf i c' hfi]
      exact (ih).cons₂ i.id

theorem adjustFull_fields (ps : List ValProduct) (validated : List CartItem)
    {c c' : CartItem} (h : (adjustFull ps validated c).1 = some c') :
    c'.id = c.id ∧ c'.productId = c.productId ∧ c'.priceId = c.priceId ∧
      c'.baseUnits = c.baseUnits ∧ c'.quantity ≤ c.quantity := by
  rcases hf : findProduct ps c.productId with _ | p
  · simp only [adjustFull, hf] at h
    have he : c = c' := Option.some.inj h
    subst he
    exact ⟨rfl, rfl, rfl, rfl, le_refl _⟩
  · rcases hq : p.invQuantity with _ | Q
    · simp only [adjustFull, hf, hq] at h
      have he := Option.some.inj h
      subst he
      exact ⟨rfl, rfl, rfl, rfl, le_refl _⟩
    · simp only [adjustFull, hf, hq] at h
      split at h
      · split at h
        · exact Option.noConfusion h
        · have he := Option.some.inj h
          subst he
          refine ⟨rfl, rfl, rfl, rfl, ?_⟩
          show jsFloorDiv _ _ ≤ c.quantity
          omega
      · have he := Option.some.inj h
        subst he
        exact ⟨rfl, rfl, rfl, rfl, le_refl _⟩

theorem adjustFull_drop_pos (ps : List ValProduct) (validated : List CartItem)
    {c : CartItem} (h : (adjustFull ps validated c).1 = none) : 0 < c.quantity := by
  rcases hf : findProduct ps c.productId with _ | p
  · simp only [adjustFull, hf] at h
    exact Option.noConfusion h
  · rcases hq : p.invQuantity with _ | Q
    · simp only [adjustFull, hf, hq] at h
      exact Option.noConfusion h
    · simp only [adjustFull, hf, hq] at h
      split at h
      · split at h
        · omega
        · exact Option.noConfusion h
      · exact Option.noConfusion h

theorem adjustFull_nonneg (ps : List ValProduct) (validated : List CartItem)
    {c c' : CartItem} (hb : 1 ≤ c.baseUnits) (hq0 : 0 ≤ c.quantity)
    (h : (adjustFull ps validated c).1 = some c') : 0 ≤ c'.quantity := by
  rcases hf : findProduct ps c.productId with _ | p
  · simp only [adjustFull, hf] at h
    have he := Option.some.inj h
    subst he
    exact hq0
  · rcases hq : p.invQuantity with _ | Q
    · simp only [adjustFull, hf, hq] at h
      have he := Option.some.inj h
      subst he
      exact hq0
    · simp only [adjustFull, hf, hq] at h
      split at h
      · split at h
        · exact Option.noConfusion h
        · have he := Option.some.inj h
          subst he
          show (0 : Int) ≤ jsFloorDiv _ _
          exact jsFloorDiv_nonneg (le_max_left 0 _) (by omega)
      · have he := Option.some.inj h
        subst he
        exact hq0

theorem usedByProduct_filterMap_adjust_le (ps : List ValProduct) (v : List CartItem)
    (hb : ∀ i ∈ v, 1 ≤ i.baseUnits) (pid : String) :
    usedByProduct (v.filterMap (fun c => (adjustFull ps v c).1)) pid ≤ usedByProduct v pid := by
  rw [usedByProduct_eq_sum, usedByProduct_eq_sum]
  apply sum_map_le_of_pointwise
  intro c hc
  constructor
  · intro c' hfc
    obtain ⟨hid, hpid, _, hbu, hqle⟩ := adjustFull_fields ps v hfc
    by_cases hp : (c.productId == pid)
    · have hp' : (c'.productId == pid) = true := by rw [hpid]; exact hp
      simp only [hp, hp', if_true]
      rw [itemUsage, itemUsage, hbu]
      exact mul_le_mul_of_nonneg_left hqle (le_trans zero_le_one (hb c hc))
    · have hpf : (c.productId == pid) = false := Bool.eq_false_iff.mpr hp
      have hp' : (c'.productId == pid) = false := by rw [hpid]; exact hpf
      simp [hpf, hp']
  · intro hfc
    by_cases hp : (c.productId == pid)
    · simp only [hp, if_true]
      exact le_of_lt (mul_pos (lt_of_lt_of_le zero_lt_one (hb c hc))
        (adjustFull_drop_pos ps v hfc))
    · have hpf : (c.productId == pid) = false := Bool.eq_false_iff.mpr hp
      simp [hpf]

theorem usedByOthers_filterMap_adjust_le (ps : List ValProduct) (v : List CartItem)
    (hb : ∀ i ∈ v, 1 ≤ i.baseUnits) (pid excl : String) :
    usedByOthers (v.filterMap (fun c => (adjustFull ps v c).1)) pid excl ≤
      usedByOthers v pid excl := by
  rw [usedByOthers_eq_sum, usedByOthers_eq_sum]
  apply sum_map_le_of_pointwise
  intro c hc
  constructor
  · intro c' hfc
    obtain ⟨hid, hpid, _, hbu, hqle⟩ := adjustFull_fields ps v hfc
    by_cases hp : (c.productId == pid && c.id != excl)
    · have hp' : (c'.productId == pid && c'.id != excl) = true := by
        rw [hpid, hid]; exact hp
      simp only [hp, hp', if_true]
      rw [itemUsage, itemUsage, hbu]
      exact mul_le_mul_of_nonneg_left hqle (le_trans zero_le_one (hb c hc))
    · have hpf : (c.productId == pid && c.id != excl) = false := Bool.eq_false_iff.mpr hp
      have hp' : (c'.productId == pid && c'.id != excl) = false := by
        rw [hpid, hid]; exact hpf
      simp [hpf, hp']
  · intro hfc
    by_cases hp : (c.productId == pid && c.id != excl)
    · simp only [hp, if_true]
      exact le_of_lt (mul_pos (lt_of_lt_of_le zero_lt_one (hb c hc))
        (adjustFull_drop_pos ps v hfc))
    · have hpf : (c.productId == pid && c.id != excl) = false := Bool.eq_false_iff.mpr hp
      simp [hpf]

theorem validateCart_items_eq (ps : List ValProduct) (prev : List CartItem) :
    (validateCart ps prev).items =
      (prev.filter (validKeep ps)).filterMap
        (fun c => (adjustFull ps (prev.filter (validKeep ps)) c).1) := by
  rw [validateCart]
  simp only [List.filterMap_map]
  rfl

theorem cartInvariant_of_proj (pools : String → Option Int) (idProd : String → String)
    (idBase : String → Int) {s : CartState} {l' : List CartItem}
    (hs : CartInvariant pools idProd idBase s)
    (hproj : l'.map itemProj = s.items.map itemProj) :
    CartInvariant pools idProd idBase { items := l', productInventory := s.productInventory } := by
  obtain ⟨h1, h2, h3, h4, h5, h6⟩ := hs
  refine ⟨?_, ?_, ?_, h4, ?_, ?_⟩
  · intro i hi
    obtain ⟨j, hj, hij⟩ := mem_proj_of_proj_eq hproj i hi
    simp only [itemProj, Prod.mk.injEq] at hij
    rw [hij.2.2.1, hij.2.2.2]
    exact h1 j hj
  · rw [ids_of_proj_eq hproj]
    exact h2
  · intro i hi
    obtain ⟨j, hj, hij⟩ := mem_proj_of_proj_eq hproj i hi
    simp only [itemProj, Prod.mk.injEq] at hij
    rw [hij.1, hij.2.1, hij.2.2.1]
    exact h3 j hj
  · intro i hi t ht
    obtain ⟨j, hj, hij⟩ := mem_proj_of_proj_eq hproj i hi
    simp only [itemProj, Prod.mk.injEq] at hij
    rw [hij.2.1]
    rw [hij.2.1] at ht
    exact h5 j hj t ht
  · intro pid T hT
    rw [usedByProduct_proj_congr hproj]
    exact h6 pid T hT

theorem cartInvariant_empty (pools : String → Option Int) (idProd : String → String)
    (idBase : String → Int) : CartInvariant pools idProd idBase emptyCart := by
  refine ⟨?_, ?_, ?_, ?_, ?_, ?_⟩
  · intro i hi
    simp [emptyCart] at hi
  · simp [emptyCart]
  · intro i hi
    simp [emptyCart] at hi
  · intro pid T hT
    simp [emptyCart, lookupInv] at hT
  · intro i hi
    simp [emptyCart] at hi
  · intro pid T hT
    simp [emptyCart, lookupInv] at hT

theorem map_setQuantity_cases {l : List CartItem} {tid : String} {q : Int} {i' : CartItem}
    (hi' : i' ∈ l.map (fun i => if i.id == tid then { i with quantity := q } else i)) :
    ∃ i ∈ l, i'.id = i.id ∧ i'.productId = i.productId ∧ i'.baseUnits = i.baseUnits ∧
      (i'.quantity = i.quantity ∨ i'.quantity = q) := by
  obtain ⟨i, hi, hup⟩ := List.mem_map.mp hi'
  by_cases hb : (i.id == tid)
  · rw [if_pos hb] at hup
    subst hup
    exact ⟨i, hi, rfl, rfl, rfl, Or.inr rfl⟩
  · rw [if_neg hb] at hup
    subst hup
    exact ⟨i, hi, rfl, rfl, rfl, Or.inl rfl⟩

theorem cartInvariant_validate (pools : String → Option Int) (idProd : String → String)
    (idBase : String → Int) {s : CartState} (ps : List ValProduct)
    (hs : CartInvariant pools idProd idBase s) :
    CartInvariant pools idProd idBase { s with items := validateItems ps s.items } := by
  obtain ⟨h1, h2, h3, h4, h5, h6⟩ := hs
  have hveq : validateItems ps s.items =
      (s.items.filter (validKeep ps)).filterMap
        (fun c => (adjustFull ps (s.items.filter (validKeep ps)) c).1) := by
    rw [validateItems, validateCart_items_eq]
  have hvsub : ∀ i ∈ s.items.filter (validKeep ps), i ∈ s.items :=
    fun i hi => (List.mem_filter.mp hi).1
  have hvb : ∀ i ∈ s.items.filter (validKeep ps), 1 ≤ i.baseUnits :=
    fun i hi => (h1 i (hvsub i hi)).1
  have hmem : ∀ i' ∈ validateItems ps s.items,
      ∃ c ∈ s.items.filter (validKeep ps),
        (adjustFull ps (s.items.filter (validKeep ps)) c).1 = some i' := by
    intro i' hi'
    rw [hveq] at hi'
    exact List.mem_filterMap.mp hi'
  refine ⟨?_, ?_, ?_, h4, ?_, ?_⟩
  · intro i hi
    obtain ⟨c, hc, hfc⟩ := hmem i hi
    obtain ⟨_, _, _, hbu, _⟩ := adjustFull_fields ps _ hfc
    have hcin := hvsub c hc
    exact ⟨by rw [hbu]; exact (h1 c hcin).1,
      adjustFull_nonneg ps _ (h1 c hcin).1 (h1 c hcin).2 hfc⟩
  · rw [hveq]
    have hsub1 := ids_filterMap_sublist
      (fun c => (adjustFull ps (s.items.filter (validKeep ps)) c).1)
      (s.items.filter (validKeep ps))
      (fun c c' h => (adjustFull_fields ps _ h).1)
    have hsub2 : ((s.items.filter (validKeep ps)).map (fun i => i.id)).Sublist
        (s.items.map (fun i => i.id)) := (List.filter_sublist _).map _
    exact List.Nodup.sublist (hsub1.trans hsub2) h2
  · intro i hi
    obtain ⟨c, hc, hfc⟩ := hmem i hi
    obtain ⟨hid, hpid, _, hbu, _⟩ := adjustFull_fields ps _ hfc
    rw [hid, hpid, hbu]
    exact h3 c (hvsub c hc)
  · intro i hi t ht
    obtain ⟨c, hc, hfc⟩ := hmem i hi
    obtain ⟨hid, hpid, _, _, _⟩ := adjustFull_fields ps _ hfc
    rw [hpid] at ht ⊢
    exact h5 c (hvsub c hc) t ht
  · intro pid T hT
    have hstep1 : usedByProduct (validateItems ps s.items) pid ≤
        usedByProduct (s.items.filter (validKeep ps)) pid := by
      rw [hveq]
      exact usedByProduct_filterMap_adjust_le ps _ hvb pid
    have hstep2 : usedByProduct (s.items.filter (validKeep ps)) pid ≤
        usedByProduct s.items pid :=
      usedByProduct_filter_le _ _
        (fun c hc => itemUsage_nonneg (h1 c hc).1 (h1 c hc).2) pid
    exact le_trans hstep1 (le_trans hstep2 (h6 pid T hT))

theorem cartInvariant_removeItem (pools : String → Option Int) (idProd : String → String)
    (idBase : String → Int) {s : CartState} (rid : String)
    (hs : CartInvariant pools idProd idBase s) :
    CartInvariant pools idProd idBase (removeItem s rid) := by
  obtain ⟨h1, h2, h3, h4, h5, h6⟩ := hs
  have hfl : CartInvariant pools idProd idBase
      { items := s.items.filter (fun i => i.id != rid),
        productInventory := s.productInventory } := by
    refine ⟨?_, ?_, ?_, h4, ?_, ?_⟩
    · intro i hi
      exact h1 i (List.mem_filter.mp hi).1
    · exact List.Nodup.sublist ((List.filter_sublist _).map _) h2
    · intro i hi
      exact h3 i (List.mem_filter.mp hi).1
    · intro i hi t ht
      exact h5 i (List.mem_filter.mp hi).1 t ht
    · intro pid T hT
      exact le_trans (usedByProduct_filter_le _ _
        (fun c hc => itemUsage_nonneg (h1 c hc).1 (h1 c hc).2) pid) (h6 pid T hT)
  rcases hfind : s.items.find? (fun i => i.id == rid) with _ | r
  · simp only [removeItem, hfind]
    exact hfl
  · rcases hla : lookupInv s.productInventory r.productId with _ | T
    · simp only [removeItem, hfind, hla]
      exact hfl
    · simp only [removeItem, hfind, hla]
      exact @cartInvariant_of_proj pools idProd idBase
        { items := s.items.filter (fun i => i.id != rid),
          productInventory := s.productInventory }
        _ hfl (recalc_proj _ _)

theorem usedByProduct_concat (l : List CartItem) (x : CartItem) (pid : String) :
    usedByProduct (l ++ [x]) pid =
      usedByProduct l pid + (if x.productId == pid then itemUsage x else 0) := by
  rw [usedByProduct_append, usedByProduct_cons, usedByProduct_nil]
  ring

theorem cartInvariant_setQuantity (pools : String → Option Int) (idProd : String → String)
    (idBase : String → Int) {s : CartState} {e : CartItem} (tid : String) (newQ : Int)
    (hfind : s.items.find? (fun i => i.id == tid) = some e)
    (hs : CartInvariant pools idProd idBase s) (hnn : 0 ≤ newQ)
    (hbound : ∀ T, lookupInv s.productInventory e.productId = some T →
      usedByProduct s.items e.productId + e.baseUnits * (newQ - e.quantity) ≤ T) :
    CartInvariant pools idProd idBase
      { items := s.items.map (fun i => if i.id == tid then { i with quantity := newQ } else i),
        productInventory := s.productInventory } := by
  obtain ⟨h1, h2, h3, h4, h5, h6⟩ := hs
  refine ⟨?_, ?_, ?_, h4, ?_, ?_⟩
  · intro i' hi'
    obtain ⟨i, hi, hid, hpid, hbu, hqc⟩ := map_setQuantity_cases hi'
    refine ⟨by rw [hbu]; exact (h1 i hi).1, ?_⟩
    rcases hqc with hh | hh
    · rw [hh]
      exact (h1 i hi).2
    · rw [hh]
      exact hnn
  · rw [ids_map_setQuantity]
    exact h2
  · intro i' hi'
    obtain ⟨i, hi, hid, hpid, hbu, hqc⟩ := map_setQuantity_cases hi'
    rw [hid, hpid, hbu]
    exact h3 i hi
  · intro i' hi' t ht
    obtain ⟨i, hi, hid, hpid, hbu, hqc⟩ := map_setQuantity_cases hi'
    rw [hpid] at ht ⊢
    exact h5 i hi t ht
  · intro pid T hT
    rw [usedByProduct_map_setQuantity s.items newQ hfind h2 pid]
    by_cases hpp : (e.productId == pid)
    · have hpe : e.productId = pid := beq_iff_eq.mp hpp
      subst hpe
      rw [if_pos hpp]
      exact hbound T hT
    · rw [if_neg hpp, add_zero]
      exact h6 pid T hT

theorem cartInvariant_updateQuantity (pools : String → Option Int) (idProd : String → String)
    (idBase : String → Int) {s : CartState} (id : String) (q : Int)
    (hs : CartInvariant pools idProd idBase s) :
    CartInvariant pools idProd idBase (updateQuantity s id q) := by
  by_cases hq : q ≤ 0
  · simp only [updateQuantity, if_pos hq]
    exact cartInvariant_removeItem pools idProd idBase id hs
  · have hq0 : 0 < q := lt_of_not_le hq
    rcases hfind : s.items.find? (fun i => i.id == id) with _ | e
    · simp only [updateQuantity, if_neg hq, hfind]
      exact hs
    · have heid : e.id = id := by
        have h := List.find?_some hfind
        simp at h
        exact h
      have hein : e ∈ s.items := List.mem_of_find?_eq_some hfind
      obtain ⟨h1, h2, h3, h4, h5, h6⟩ := hs
      have hbe : 1 ≤ e.baseUnits := (h1 e hein).1
      have hqe : 0 ≤ e.quantity := (h1 e hein).2
      rcases hla : lookupInv s.productInventory e.productId with _ | T
      · simp only [updateQuantity, if_neg hq, hfind, hla]
        exact cartInvariant_setQuantity pools idProd idBase id q hfind
          ⟨h1, h2, h3, h4, h5, h6⟩ (le_of_lt hq0)
          (fun T' hT' => absurd (hla ▸ hT') (by simp))
      · have hU : usedByProduct s.items e.productId ≤ T := h6 _ T hla
        have hUO : usedByOthers s.items e.productId id =
            usedByProduct s.items e.productId - itemUsage e := by
          rw [usedByOthers_find_eq s.items hfind h2 e.productId]
          simp
        have hUOle : usedByOthers s.items e.productId id ≤ T := by
          have := itemUsage_nonneg hbe hqe
          omega
        have hfd0 : 0 ≤ jsFloorDiv (T - usedByOthers s.items e.productId id) e.baseUnits :=
          jsFloorDiv_nonneg (by omega) (by omega)
        have hstep : CartInvariant pools idProd idBase
            { items := s.items.map (fun i =>
                if i.id == id then
                  { i with quantity := min q (jsFloorDiv (T - usedByOthers s.items e.productId id) e.baseUnits) }
                else i),
              productInventory := s.productInventory } := by
          apply cartInvariant_setQuantity pools idProd idBase id _ hfind
            ⟨h1, h2, h3, h4, h5, h6⟩ (le_min (le_of_lt hq0) hfd0)
          intro T' hT'
          have hTT : T' = T := by
            rw [hla] at hT'
            exact (Option.some.inj hT').symm
          rw [hTT]
          have hmul : e.baseUnits *
              min q (jsFloorDiv (T - usedByOthers s.items e.productId id) e.baseUnits) ≤
                T - usedByOthers s.items e.productId id := by
            have h1' : min q (jsFloorDiv (T - usedByOthers s.items e.productId id) e.baseUnits) ≤
                jsFloorDiv (T - usedByOthers s.items e.productId id) e.baseUnits :=
              min_le_right _ _
            have h2' := mul_le_mul_of_nonneg_left h1' (by omega :
              (0:Int) ≤ e.baseUnits)
            have h3' := jsFloorDiv_mul_le (T - usedByOthers s.items e.productId id)
              (by omega : (0:Int) < e.baseUnits)
            nlinarith
          rw [itemUsage] at hUO
          nlinarith
        simp only [updateQuantity, if_neg hq, hfind, hla]
        exact @cartInvariant_of_proj pools idProd idBase
          { items := s.items.map (fun i =>
              if i.id == id then
                { i with quantity := min q (jsFloorDiv (T - usedByOthers s.items e.productId id) e.baseUnits) }
              else i),
            productInventory := s.productInventory }
          _ hstep (recalc_proj _ _)

theorem cartInvariant_addItem (pools : String → Option Int) (idProd : String → String)
    (idBase : String → Int) {s : CartState} (item : CartItem)
    (hpools : PoolsOK pools) (hs : CartInvariant pools idProd idBase s)
    (hti : item.totalInventory = pools item.productId)
    (hb1 : 1 ≤ item.baseUnits) (hq0 : 0 ≤ item.quantity)
    (hip : item.productId = idProd item.id) (hib : item.baseUnits = idBase item.id) :
    CartInvariant pools idProd idBase (addItem s item) := by
  obtain ⟨h1, h2, h3, h4, h5, h6⟩ := hs
  rcases htio : item.totalInventory with _ | t0
  · -- the product's pool is unlimited: nothing is tracked and nothing clamps
    have hpn : pools item.productId = none := by
      rw [hti] at htio
      exact htio
    have hlan : lookupInv s.productInventory item.productId = none := by
      rcases hl : lookupInv s.productInventory item.productId with _ | w
      · rfl
      · have hw := h4 _ w hl
        rw [hpn] at hw
        exact Option.noConfusion hw
    rcases hfind : s.items.find? (fun i => i.id == item.id) with _ | e
    · -- new line appended, quantity untouched
      simp only [addItem, htio, hlan, hfind]
      have hnm : ∀ i ∈ s.items, i.id ≠ item.id := by
        intro i hi
        have := List.find?_eq_none.mp hfind i hi
        simpa using this
      refine ⟨?_, ?_, ?_, h4, ?_, ?_⟩
      · intro i' hi'
        rcases List.mem_append.mp hi' with h | h
        · exact h1 i' h
        · rw [List.mem_singleton] at h
          subst h
          exact ⟨hb1, hq0⟩
      · rw [List.map_append]
        rw [List.nodup_append]
        refine ⟨h2, by simp, ?_⟩
        intro a ha hb
        simp only [List.map_cons, List.map_nil, List.mem_singleton] at hb
        obtain ⟨i, hi, hia⟩ := List.mem_map.mp ha
        exact hnm i hi (by rw [hia, hb])
      · intro i' hi'
        rcases List.mem_append.mp hi' with h | h
        · exact h3 i' h
        · rw [List.mem_singleton] at h
          subst h
          exact ⟨hip, hib⟩
      · intro i' hi' t ht
        rcases List.mem_append.mp hi' with h | h
        · exact h5 i' h t ht
        · rw [List.mem_singleton] at h
          subst h
          have ht' : pools item.productId = some t := ht
          rw [hpn] at ht'
          exact Option.noConfusion ht'
      · intro p T hT
        rw [usedByProduct_concat]
        by_cases hpp : (item.productId == p)
        · have hpe : item.productId = p := beq_iff_eq.mp hpp
          rw [← hpe, hlan] at hT
          exact Option.noConfusion hT
        · have hpp' : ¬ (({ item with quantity := item.quantity } : CartItem).productId == p) = true := hpp
          rw [if_neg hpp', add_zero]
          exact h6 p T hT
    · -- existing line: quantity grows unclamped
      have heid : e.id = item.id := by
        have h := List.find?_some hfind
        simp at h
        exact h
      have hein : e ∈ s.items := List.mem_of_find?_eq_some hfind
      have hepid : e.productId = item.productId := by
        rw [(h3 e hein).1, heid, ← hip]
      simp only [addItem, htio, hlan, hfind]
      apply cartInvariant_setQuantity pools idProd idBase item.id _ hfind
        ⟨h1, h2, h3, h4, h5, h6⟩
      · exact add_nonneg (h1 e hein).2 hq0
      · intro T hT
        rw [hepid, hlan] at hT
        exact Option.noConfusion hT
  · -- finite pool: the product becomes (or stays) tracked at value t0
    have hps : pools item.productId = some t0 := by
      rw [hti] at htio
      exact htio
    have h0t : 0 ≤ t0 := hpools _ t0 hps
    have hF3 : lookupInv (insertIfAbsent s.productInventory item.productId t0)
        item.productId = some t0 := by
      rcases hl : lookupInv s.productInventory item.productId with _ | w
      · rw [lookupInv_insertIfAbsent_self, hl]
        rfl
      · have hw : w = t0 := by
          have hpw := h4 _ w hl
          rw [hps] at hpw
          exact (Option.some.inj hpw).symm
        rw [lookupInv_insertIfAbsent_self, hl, hw]
        rfl
    have hF1 : ∀ p T, lookupInv (insertIfAbsent s.productInventory item.productId t0) p =
        some T → pools p = some T := by
      intro p T hT
      rcases lookupInv_insertIfAbsent_cases hT with h | ⟨hp, hTv, _⟩
      · exact h4 p T h
      · rw [hp, hTv]
        exact hps
    have hF2 : ∀ p t, lookupInv s.productInventory p = some t →
        lookupInv (insertIfAbsent s.productInventory item.productId t0) p = some t :=
      fun p t h => lookupInv_insertIfAbsent_of_some h
    have hU : usedByProduct s.items item.productId ≤ t0 := by
      rcases hl : lookupInv s.productInventory item.productId with _ | w
      · have hnone : ∀ i ∈ s.items, i.productId ≠ item.productId := by
          intro i hi hieq
          have hh := h5 i hi t0 (by rw [hieq]; exact hps)
          rw [hieq, hl] at hh
          exact Option.noConfusion hh
        rw [usedByProduct_zero_of_no_pid s.items _ hnone]
        exact h0t
      · have hw : w = t0 := by
          have hpw := h4 _ w hl
          rw [hps] at hpw
          exact (Option.some.inj hpw).symm
        rw [← hw]
        exact h6 _ w hl
    have hs' : CartInvariant pools idProd idBase
        { items := s.items,
          productInventory := insertIfAbsent s.productInventory item.productId t0 } := by
      refine ⟨h1, h2, h3, hF1, ?_, ?_⟩
      · intro i hi t ht
        exact hF2 _ t (h5 i hi t ht)
      · intro p T hT
        rcases lookupInv_insertIfAbsent_cases hT with h | ⟨hp, hTv, hnone⟩
        · exact h6 p T h
        · subst hp
          rw [hTv]
          have hnoitems : ∀ i ∈ s.items, i.productId ≠ item.productId := by
            intro i hi hieq
            have hh := h5 i hi t0 (by rw [hieq]; exact hps)
            rw [hieq, hnone] at hh
            exact Option.noConfusion hh
          rw [usedByProduct_zero_of_no_pid s.items _ hnoitems]
          exact h0t
    have hcanAdd0 : 0 ≤ jsFloorDiv (t0 - usedByProduct s.items item.productId)
        item.baseUnits := jsFloorDiv_nonneg (by omega) (by omega)
    have hmulAdd : jsFloorDiv (t0 - usedByProduct s.items item.productId) item.baseUnits *
        item.baseUnits ≤ t0 - usedByProduct s.items item.productId :=
      jsFloorDiv_mul_le _ (by omega)
    rcases hfind : s.items.find? (fun i => i.id == item.id) with _ | e
    · -- new line appended, clamped to the remaining pool
      simp only [addItem, htio, hF3, hfind]
      have hnm : ∀ i ∈ s.items, i.id ≠ item.id := by
        intro i hi
        have := List.find?_eq_none.mp hfind i hi
        simpa using this
      obtain ⟨g1, g2, g3, g4, g5, g6⟩ := hs'
      have hactual0 : 0 ≤ min item.quantity
          (jsFloorDiv (t0 - usedByProduct s.items item.productId) item.baseUnits) :=
        le_min hq0 hcanAdd0
      have happ : CartInvariant pools idProd idBase
          { items := s.items ++ [{ item with quantity := min item.quantity (jsFloorDiv (t0 - usedByProduct s.items item.productId) item.baseUnits) }],
            productInventory := insertIfAbsent s.productInventory item.productId t0 } := by
        refine ⟨?_, ?_, ?_, g4, ?_, ?_⟩
        · intro i' hi'
          rcases List.mem_append.mp hi' with h | h
          · exact g1 i' h
          · have : i' = { item with quantity := min item.quantity (jsFloorDiv (t0 - usedByProduct s.items item.productId) item.baseUnits) } := by
              simpa using h
            subst this
            exact ⟨hb1, hactual0⟩
        · rw [List.map_append, List.nodup_append]
          refine ⟨g2, by simp, ?_⟩
          intro a ha hb
          simp only [List.map_cons, List.map_nil, List.mem_singleton] at hb
          obtain ⟨i, hi, hia⟩ := List.mem_map.mp ha
          exact hnm i hi (by rw [hia, hb])
        · intro i' hi'
          rcases List.mem_append.mp hi' with h | h
          · exact g3 i' h
          · have : i' = { item with quantity := min item.quantity (jsFloorDiv (t0 - usedByProduct s.items item.productId) item.baseUnits) } := by
              simpa using h
            subst this
            exact ⟨hip, hib⟩
        · intro i' hi' t ht
          rcases List.mem_append.mp hi' with h | h
          · exact g5 i' h t ht
          · have : i' = { item with quantity := min item.quantity (jsFloorDiv (t0 - usedByProduct s.items item.productId) item.baseUnits) } := by
              simpa using h
            subst this
            have ht' : pools item.productId = some t := ht
            rw [hps] at ht'
            have : t = t0 := (Option.some.inj ht').symm
            rw [this]
            exact hF3
        · intro p T hT
          rw [usedByProduct_concat]
          by_cases hpp : (item.productId == p)
          · have hpe : item.productId = p := beq_iff_eq.mp hpp
            subst hpe
            have hTt0 : T = t0 := by
              rw [hF3] at hT
              exact (Option.some.inj hT).symm
            rw [hTt0, if_pos (by exact hpp)]
            have hiu : itemUsage { item with quantity := min item.quantity (jsFloorDiv (t0 - usedByProduct s.items item.productId) item.baseUnits) } =
                item.baseUnits * min item.quantity (jsFloorDiv (t0 - usedByProduct s.items item.productId) item.baseUnits) := rfl
            rw [hiu]
            have hle : min item.quantity (jsFloorDiv (t0 - usedByProduct s.items item.productId) item.baseUnits) ≤
                jsFloorDiv (t0 - usedByProduct s.items item.productId) item.baseUnits :=
              min_le_right _ _
            have hmm := mul_le_mul_of_nonneg_left hle (by omega : (0:Int) ≤ item.baseUnits)
            nlinarith
          · rw [if_neg hpp, add_zero]
            exact g6 p T hT
      rw [← htio]
      exact @cartInvariant_of_proj pools idProd idBase
        { items := s.items ++ [{ item with quantity := min item.quantity (jsFloorDiv (t0 - usedByProduct s.items item.productId) item.baseUnits) }],
          productInventory := insertIfAbsent s.productInventory item.productId t0 }
        _ happ (recalc_proj _ _)
    · -- existing line: increment clamped to the remaining pool
      have heid : e.id = item.id := by
        have h := List.find?_some hfind
        simp at h
        exact h
      have hein : e ∈ s.items := List.mem_of_find?_eq_some hfind
      have hepid : e.productId = item.productId := by
        rw [(h3 e hein).1, heid, ← hip]
      have hebase : e.baseUnits = item.baseUnits := by
        rw [(h3 e hein).2, heid, ← hib]
      simp only [addItem, htio, hF3, hfind]
      have hmid : CartInvariant pools idProd idBase
          { items := s.items.map (fun i =>
              if i.id == item.id then
                { i with quantity := min (e.quantity + item.quantity) (e.quantity + jsFloorDiv (t0 - usedByProduct s.items item.productId) item.baseUnits) }
              else i),
            productInventory := insertIfAbsent s.productInventory item.productId t0 } := by
        apply @cartInvariant_setQuantity pools idProd idBase
          { items := s.items,
            productInventory := insertIfAbsent s.productInventory item.productId t0 }
          e item.id _ hfind hs'
        · exact le_min (add_nonneg (h1 e hein).2 hq0)
            (add_nonneg (h1 e hein).2 hcanAdd0)
        · intro T hT
          rw [hepid, hF3] at hT
          have hTt0 : T = t0 := (Option.some.inj hT).symm
          rw [hTt0, hepid, hebase]
          have hle : min (e.quantity + item.quantity) (e.quantity + jsFloorDiv (t0 - usedByProduct s.items item.productId) item.baseUnits) - e.quantity ≤
              jsFloorDiv (t0 - usedByProduct s.items item.productId) item.baseUnits := by
            omega
          have hmm := mul_le_mul_of_nonneg_left hle (by omega : (0:Int) ≤ item.baseUnits)
          nlinarith [hmm, hmulAdd, hU]
      exact @cartInvariant_of_proj pools idProd idBase
        { items := s.items.map (fun i =>
            if i.id == item.id then
              { i with quantity := min (e.quantity + item.quantity) (e.quantity + jsFloorDiv (t0 - usedByProduct s.items item.productId) item.baseUnits) }
            else i),
          productInventory := insertIfAbsent s.productInventory item.productId t0 }
        _ hmid (recalc_proj _ _)

theorem cartInvariant_applyOp (pools : String → Option Int) (idProd : String → String)
    (idBase : String → Int) (hpools : PoolsOK pools) {s : CartState} (op : CartOp)
    (hs : CartInvariant pools idProd idBase s) (hop : ConsistentOp pools idProd idBase op) :
    CartInvariant pools idProd idBase (applyOp s op) := by
  cases op with
  | add item =>
    obtain ⟨hti, hb1, hq0, hip, hib⟩ := hop
    exact cartInvariant_addItem pools idProd idBase item hpools hs hti hb1 hq0 hip hib
  | remove id => exact cartInvariant_removeItem pools idProd idBase id hs
  | update id q => exact cartInvariant_updateQuantity pools idProd idBase id q hs
  | validate ps => exact cartInvariant_validate pools idProd idBase ps hs

theorem cartInvariant_foldl (pools : String → Option Int) (idProd : String → String)
    (idBase : String → Int) (hpools : PoolsOK pools) (ops : List CartOp) :
    ∀ s : CartState, CartInvariant pools idProd idBase s →
      (∀ op ∈ ops, ConsistentOp pools idProd idBase op) →
      CartInvariant pools idProd idBase (ops.foldl applyOp s) := by
  induction ops with
  | nil =>
    intro s hs _
    exact hs
  | cons op t ih =>
    intro s hs hops
    rw [List.foldl_cons]
    exact ih (applyOp s op)
      (cartInvariant_applyOp pools idProd idBase hpools op hs (hops op (List.mem_cons_self op t)))
      (fun o ho => hops o (List.mem_cons_of_mem op ho))

theorem cartInvariant_runOps_take (pools : String → Option Int) (idProd : String → String)
    (idBase : String → Int) (hpools : PoolsOK pools) (ops : List CartOp)
    (hops : ∀ op ∈ ops, ConsistentOp pools idProd idBase op) (n : Nat) :
    CartInvariant pools idProd idBase (runOps (ops.take n)) := by
  rw [runOps]
  exact cartInvariant_foldl pools idProd idBase hpools (ops.take n) emptyCart
    (cartInvariant_empty pools idProd idBase)
    (fun op ho => hops op ((List.take_sublist n ops).subset ho))

/-- Claim C1 (amended): starting from the empty cart, for any sequence of
`addItem`, `updateQuantity`, `removeItem` and `validateCart` calls whose
`addItem` inputs are consistent with a fixed catalog — every add reports
its product's fixed, nonnegative pool as `totalInventory`, has nonnegative
quantity, and two adds sharing a line id agree on product and base-unit
multiplier (≥ 1) — after each call, for every product tracked with a finite
pool, the sum over its cart lines of quantity × baseUnitMultiplier is at
most the tracked pool.  (As stated, without the consistency requirement,
the claim is false: see the counterexample.) -/
theorem cart_pool_invariant_consistent (pools : String → Option Int)
    (idProd : String → String) (idBase : String → Int) (hpools : PoolsOK pools)
    (ops : List CartOp) (hops : ∀ op ∈ ops, ConsistentOp pools idProd idBase op)
    (n : Nat) (pid : String) (T : Int)
    (hT : lookupInv (runOps (ops.take n)).productInventory pid = some T) :
    usedByProduct (runOps (ops.take n)).items pid ≤ T := by
  have h := cartInvariant_runOps_take pools idProd idBase hpools ops hops n
  exact h.2.2.2.2.2 pid T hT

/-- Claim C1, counterexample to the unrestricted statement: add 5 of an
untracked variant (`totalInventory: null`), then add its sibling variant
reporting a pool of 3 (the pool becomes tracked at 3 and the new line is
clamped to a negative quantity), then remove the sibling: the remaining
line uses 5 > 3 base units of the tracked pool. -/
theorem cart_pool_invariant_counterexample :
    lookupInv (runOps [CartOp.add (mkItem "p-v1" "p" "v1" 5 1 none),
        CartOp.add (mkItem "p-v2" "p" "v2" 1 4 (some 3)),
        CartOp.remove "p-v2"]).productInventory "p" = some 3 ∧
    ¬ usedByProduct (runOps [CartOp.add (mkItem "p-v1" "p" "v1" 5 1 none),
        CartOp.add (mkItem "p-v2" "p" "v2" 1 4 (some 3)),
        CartOp.remove "p-v2"]).items "p" ≤ 3 := by
  constructor
  · decide
  · decide

/-- Witness for the amended claim C1 at a concrete consistent run. -/
theorem cart_pool_invariant_consistent_witness :
    usedByProduct (runOps (([CartOp.add (mkItem "p-v1" "p" "v1" 2 4 (some 10)),
        CartOp.update "p-v1" 100]).take 2)).items "p" ≤ 10 := by
  apply cart_pool_invariant_consistent (fun pid => if pid = "p" then some 10 else none)
    (fun _ => "p") (fun _ => 4)
  · intro pid t h
    by_cases hp : pid = "p" <;> simp [hp] at h <;> omega
  · intro op hop
    rcases List.mem_cons.mp hop with h | h
    · subst h
      exact ⟨by decide, by decide, by decide, by decide, by decide⟩
    · rcases List.mem_cons.mp h with h' | h'
      · subst h'
        trivial
      · exact absurd h' (List.not_mem_nil _)
  · decide

/-- Claim C8 (amended): under the same consistent-catalog conditions as
amended C1, every cart line's quantity is ≥ 0 after every call — quantity 0
is reachable (`addItem` into an exhausted pool inserts a zero-quantity
line, refuting "quantity ≥ 1"), but never negative; and `updateQuantity`
with a non-positive quantity behaves exactly as `removeItem`. -/
theorem cart_quantity_nonneg_and_update_removes (pools : String → Option Int)
    (idProd : String → String) (idBase : String → Int) (hpools : PoolsOK pools)
    (ops : List CartOp) (hops : ∀ op ∈ ops, ConsistentOp pools idProd idBase op)
    (n : Nat) :
    (∀ i ∈ (runOps (ops.take n)).items, 0 ≤ i.quantity) ∧
    (∀ (s : CartState) (id : String) (q : Int), q ≤ 0 →
      updateQuantity s id q = removeItem s id) := by
  constructor
  · intro i hi
    have h := cartInvariant_runOps_take pools idProd idBase hpools ops hops n
    exact (h.1 i hi).2
  · intro s id q hq
    simp only [updateQuantity, if_pos hq]

/-- Claim C8, counterexample to "quantity ≥ 1 after every operation":
adding one unit of a variant whose pool is already exhausted (0 base units)
inserts a line with quantity 0. -/
theorem cart_quantity_min_one_counterexample :
    (addItem emptyCart (mkItem "p-v1" "p" "v1" 1 1 (some 0))).items.map
        (fun i => i.quantity) = [0] ∧
    ¬ (∀ i ∈ (addItem emptyCart (mkItem "p-v1" "p" "v1" 1 1 (some 0))).items,
        1 ≤ i.quantity) := by
  constructor
  · decide
  · decide

/-- Witness for the amended claim C8 at a concrete consistent run. -/
theorem cart_quantity_nonneg_witness :
    ((runOps (([CartOp.add (mkItem "p-v1" "p" "v1" 2 4 (some 10))]).take 1)).items.all
        (fun i => decide (0 ≤ i.quantity))) = true ∧
      updateQuantity emptyCart "x" 0 = removeItem emptyCart "x" := by
  have hpOK : PoolsOK (fun pid => if pid = "p" then some 10 else none) := by
    intro pid t h
    by_cases hp : pid = "p" <;> simp [hp] at h <;> omega
  have hoOK : ∀ op ∈ [CartOp.add (mkItem "p-v1" "p" "v1" 2 4 (some 10))],
      ConsistentOp (fun pid => if pid = "p" then some 10 else none)
        (fun _ => "p") (fun _ => 4) op := by
    intro op hop
    rcases List.mem_cons.mp hop with h | h
    · subst h
      exact ⟨by decide, by decide, by decide, by decide, by decide⟩
    · exact absurd h (List.not_mem_nil _)
  have h := cart_quantity_nonneg_and_update_removes
    (fun pid => if pid = "p" then some 10 else none) (fun _ => "p") (fun _ => 4) hpOK
    [CartOp.add (mkItem "p-v1" "p" "v1" 2 4 (some 10))] hoOK 1
  constructor
  · rw [List.all_eq_true]
    intro i hi
    simpa using h.1 i hi
  · exact h.2 emptyCart "x" 0 (by decide)

theorem validKeep_congr (ps : List ValProduct) {c c' : CartItem}
    (h1 : c'.productId = c.productId) (h2 : c'.priceId = c.priceId) :
    validKeep ps c' = validKeep ps c := by
  rw [validKeep, validKeep, h1, h2]

theorem validKeep_eq_true {ps : List ValProduct} {c : CartItem} :
    validKeep ps c = true ↔
      ∃ p, findProduct ps c.productId = some p ∧
        (p.available && priceExistsFor p c.priceId) = true := by
  rw [validKeep]
  rcases h : findProduct ps c.productId with _ | p <;> simp [h]

theorem adjustFull_unlimited (ps : List ValProduct) (validated : List CartItem)
    {c : CartItem} {p : ValProduct} (hf : findProduct ps c.productId = some p)
    (hq : p.invQuantity = none) :
    adjustFull ps validated c =
      (some { c with maxQuantity := none, imageUrl := jsOrStr c.imageUrl p.primaryImageUrl },
        none, none) := by
  simp [adjustFull, hf, hq]

theorem adjustFull_keep (ps : List ValProduct) (validated : List CartItem)
    {c : CartItem} {p : ValProduct} {Q : Int} (hf : findProduct ps c.productId = some p)
    (hq : p.invQuantity = some Q)
    (hle : c.quantity ≤
      jsFloorDiv (max 0 (Q - usedByOthers validated c.productId c.id)) c.baseUnits) :
    adjustFull ps validated c =
      (some { c with
          maxQuantity :=
            some (jsFloorDiv (max 0 (Q - usedByOthers validated c.productId c.id)) c.baseUnits),
          imageUrl := jsOrStr c.imageUrl p.primaryImageUrl },
        none, none) := by
  simp only [adjustFull, hf, hq]
  rw [if_neg (not_lt.mpr hle)]

theorem adjustFull_quantity_le_max (ps : List ValProduct) (validated : List CartItem)
    {c c' : CartItem} {p : ValProduct} {Q : Int} (hf : findProduct ps c.productId = some p)
    (hq : p.invQuantity = some Q) (h : (adjustFull ps validated c).1 = some c') :
    c'.quantity ≤
      jsFloorDiv (max 0 (Q - usedByOthers validated c.productId c.id)) c.baseUnits := by
  simp only [adjustFull, hf, hq] at h
  split at h
  · split at h
    · exact Option.noConfusion h
    · have he := Option.some.inj h
      subst he
      exact le_refl _
  · have he := Option.some.inj h
    subst he
    show c.quantity ≤ _
    omega

theorem filterMap_map_eq_of_pointwise {α β : Type} (f : α → Option α) (pr : α → β)
    (l : List α) (h : ∀ x ∈ l, ∃ y, f x = some y ∧ pr y = pr x) :
    (l.filterMap f).map pr = l.map pr := by
  induction l with
  | nil => rfl
  | cons x t ih =>
    obtain ⟨y, hy, hpr⟩ := h x (List.mem_cons_self x t)
    rw [List.filterMap_cons, hy, List.map_cons, List.map_cons, hpr,
      ih (fun z hz => h z (List.mem_cons_of_mem x hz))]

/-- Claim C2 (amended): a second `validateCart` run with the same snapshot
changes no line's membership or quantity (for carts whose lines have
positive base-unit multipliers) — but it may still change cached
`maxQuantity` values, which refutes full-state idempotence (see the
counterexample). -/
theorem validateCart_idempotent_quantities (ps : List ValProduct) (prev : List CartItem)
    (hb : ∀ i ∈ prev, 1 ≤ i.baseUnits) :
    (validateItems ps (validateItems ps prev)).map (fun i => (i.id, i.quantity)) =
      (validateItems ps prev).map (fun i => (i.id, i.quantity)) := by
  have hbv1 : ∀ i ∈ prev.filter (validKeep ps), 1 ≤ i.baseUnits :=
    fun i hi => hb i (List.mem_filter.mp hi).1
  have hout1 : validateItems ps prev =
      (prev.filter (validKeep ps)).filterMap
        (fun c => (adjustFull ps (prev.filter (validKeep ps)) c).1) := by
    rw [validateItems, validateCart_items_eq]
  have horigin : ∀ c' ∈ validateItems ps prev,
      ∃ c ∈ prev.filter (validKeep ps),
        (adjustFull ps (prev.filter (validKeep ps)) c).1 = some c' := by
    intro c' hc'
    rw [hout1] at hc'
    exact List.mem_filterMap.mp hc'
  have hkeep1 : ∀ c' ∈ validateItems ps prev, validKeep ps c' = true := by
    intro c' hc'
    obtain ⟨c, hc, hfc⟩ := horigin c' hc'
    obtain ⟨_, hpid, hpr, _, _⟩ := adjustFull_fields ps _ hfc
    rw [validKeep_congr ps hpid hpr]
    exact (List.mem_filter.mp hc).2
  have hfe : (validateItems ps prev).filter (validKeep ps) = validateItems ps prev :=
    List.filter_eq_self.mpr hkeep1
  have hout2 : validateItems ps (validateItems ps prev) =
      (validateItems ps prev).filterMap
        (fun c => (adjustFull ps (validateItems ps prev) c).1) := by
    rw [validateItems, validateCart_items_eq, hfe]
  rw [hout2]
  apply filterMap_map_eq_of_pointwise
  intro c' hc'
  obtain ⟨c, hc, hfc⟩ := horigin c' hc'
  obtain ⟨hid, hpid, hpr, hbu, _⟩ := adjustFull_fields ps _ hfc
  have hkc : validKeep ps c' = true := hkeep1 c' hc'
  obtain ⟨p, hfp, hap⟩ := validKeep_eq_true.mp hkc
  have hfp0 : findProduct ps c.productId = some p := by
    rw [← hpid]
    exact hfp
  rcases hquant : p.invQuantity with _ | Q
  · refine ⟨{ c' with maxQuantity := none, imageUrl := jsOrStr c'.imageUrl p.primaryImageUrl }, ?_, rfl⟩
    have := adjustFull_unlimited ps (validateItems ps prev) hfp hquant
    rw [this]
  · have hb1c : 1 ≤ c.baseUnits := hbv1 c hc
    have hle1 : c'.quantity ≤
        jsFloorDiv (max 0 (Q - usedByOthers (prev.filter (validKeep ps)) c.productId c.id))
          c.baseUnits :=
      adjustFull_quantity_le_max ps _ hfp0 hquant hfc
    have hole : usedByOthers (validateItems ps prev) c.productId c.id ≤
        usedByOthers (prev.filter (validKeep ps)) c.productId c.id := by
      rw [hout1]
      exact usedByOthers_filterMap_adjust_le ps _ hbv1 c.productId c.id
    have hmax12 :
        jsFloorDiv (max 0 (Q - usedByOthers (prev.filter (validKeep ps)) c.productId c.id))
            c.baseUnits ≤
          jsFloorDiv (max 0 (Q - usedByOthers (validateItems ps prev) c.productId c.id))
            c.baseUnits := by
      apply jsFloorDiv_mono (by omega)
      exact max_le_max (le_refl 0) (by omega)
    have hle2 : c'.quantity ≤
        jsFloorDiv (max 0 (Q - usedByOthers (validateItems ps prev) c'.productId c'.id))
          c'.baseUnits := by
      rw [hpid, hid, hbu]
      omega
    refine ⟨{ c' with maxQuantity := some (jsFloorDiv (max 0 (Q - usedByOthers (validateItems ps prev) c'.productId c'.id)) c'.baseUnits), imageUrl := jsOrStr c'.imageUrl p.primaryImageUrl }, ?_, rfl⟩
    have := adjustFull_keep ps (validateItems ps prev) hfp hquant hle2
    rw [this]

/-- Claim C2, counterexample to full-state idempotence: two sibling lines
of 10 against a pool of 15 are both clamped to 5 with cached max 5 on the
first run; the second run keeps the quantities but recomputes both cached
maxima to 10, so the cart states differ. -/
theorem validateCart_full_idempotence_counterexample :
    validateItems [⟨"s", "p", some [⟨"v1", 1⟩, ⟨"v2", 1⟩], some 15, true, none⟩]
        (validateItems [⟨"s", "p", some [⟨"v1", 1⟩, ⟨"v2", 1⟩], some 15, true, none⟩]
          [mkItem "p-v1" "p" "v1" 10 1 none, mkItem "p-v2" "p" "v2" 10 1 none]) ≠
      validateItems [⟨"s", "p", some [⟨"v1", 1⟩, ⟨"v2", 1⟩], some 15, true, none⟩]
        [mkItem "p-v1" "p" "v1" 10 1 none, mkItem "p-v2" "p" "v2" 10 1 none] := by
  decide

/-- Witness for the amended claim C2 at a concrete cart and snapshot. -/
theorem validateCart_idempotent_quantities_witness :
    (validateItems [⟨"s", "p", some [⟨"v1", 4⟩], some 40, true, none⟩]
        (validateItems [⟨"s", "p", some [⟨"v1", 4⟩], some 40, true, none⟩]
          [mkItem "p-v1" "p" "v1" 25 4 none])).map (fun i => (i.id, i.quantity)) =
      (validateItems [⟨"s", "p", some [⟨"v1", 4⟩], some 40, true, none⟩]
        [mkItem "p-v1" "p" "v1" 25 4 none]).map (fun i => (i.id, i.quantity)) :=
  validateCart_idempotent_quantities
    [⟨"s", "p", some [⟨"v1", 4⟩], some 40, true, none⟩]
    [mkItem "p-v1" "p" "v1" 25 4 none] (by decide)

/-- Claim C3: the allocation calculator of `ProductAddToCart` returns no
cap for an unlimited pool, and otherwise
`floor(max(0, totalBaseUnits - otherVariantsUsage) / candidateMultiplier)`
(Euclidean division, since the numerator is nonnegative); with a pool of
100 a multiplier-4 variant caps at 25 in an otherwise empty cart, and at
22 = floor((100-10)/4) once 10 units of a multiplier-1 variant are in the
cart. -/
theorem allocation_calculator_spec :
    (∀ u b : Int, allocMaxQuantity none u b = none) ∧
    (∀ t u b : Int, 1 ≤ b → allocMaxQuantity (some t) u b = some ((max 0 (t - u)) / b)) ∧
    allocMaxQuantity (some 100) 0 4 = some 25 ∧
    allocMaxQuantityInCart (some 100) [mkItem "p-v4oz" "p" "v4oz" 10 1 none] "p" "p-v1lb" 4 =
      some 22 := by
  refine ⟨fun u b => rfl, ?_, by decide, by decide⟩
  intro t u b hb
  rw [allocMaxQuantity]
  rw [jsFloorDiv, Int.fdiv_eq_ediv _ (by omega)]

/-- Witness for claim C3's divisor hypothesis at multiplier 4. -/
theorem allocation_calculator_spec_witness :
    allocMaxQuantity (some 100) 10 4 = some ((max 0 (100 - 10)) / 4) :=
  allocation_calculator_spec.2.1 100 10 4 (by decide)

/-- Claim C4: during validation, a line whose quantity exceeds its freshly
recomputed maximum is dropped (and recorded as removed) when the new
maximum is 0, and otherwise clamped down to the new maximum with an
adjusted notification carrying the before/after quantities; concretely a
multiplier-4 line of 25 is clamped to 10 with from=25, to=10 when the pool
shrinks from 100 to 40. -/
theorem validateCart_clamp_spec :
    (∀ (ps : List ValProduct) (validated : List CartItem) (c : CartItem)
        (p : ValProduct) (Q : Int),
      findProduct ps c.productId = some p → p.invQuantity = some Q →
      jsFloorDiv (max 0 (Q - usedByOthers validated c.productId c.id)) c.baseUnits <
        c.quantity →
      (jsFloorDiv (max 0 (Q - usedByOthers validated c.productId c.id)) c.baseUnits = 0 →
        adjustFull ps validated c = (none, some (itemLabel c), none)) ∧
      (jsFloorDiv (max 0 (Q - usedByOthers validated c.productId c.id)) c.baseUnits ≠ 0 →
        adjustFull ps validated c =
          (some { c with quantity := jsFloorDiv (max 0 (Q - usedByOthers validated c.productId c.id)) c.baseUnits, maxQuantity := some (jsFloorDiv (max 0 (Q - usedByOthers validated c.productId c.id)) c.baseUnits), imageUrl := jsOrStr c.imageUrl p.primaryImageUrl },
            none,
            some (itemLabel c, c.quantity,
              jsFloorDiv (max 0 (Q - usedByOthers validated c.productId c.id)) c.baseUnits)))) ∧
    (validateCart [⟨"s", "p", some [⟨"v1", 4⟩], some 40, true, none⟩]
        [mkItem "p-v1" "p" "v1" 25 4 none]).items.map (fun i => i.quantity) = [10] ∧
    (validateCart [⟨"s", "p", some [⟨"v1", 4⟩], some 40, true, none⟩]
        [mkItem "p-v1" "p" "v1" 25 4 none]).adjusted = [("Jerky (sz)", 25, 10)] ∧
    (validateCart [⟨"s", "p", some [⟨"v1", 4⟩], some 0, true, none⟩]
        [mkItem "p-v1" "p" "v1" 25 4 none]).items = [] ∧
    (validateCart [⟨"s", "p", some [⟨"v1", 4⟩], some 0, true, none⟩]
        [mkItem "p-v1" "p" "v1" 25 4 none]).removed = ["Jerky (sz)"] := by
  refine ⟨?_, by decide, by decide, by decide, by decide⟩
  intro ps validated c p Q hf hq hlt
  constructor
  · intro h0
    simp only [adjustFull, hf, hq]
    rw [if_pos hlt, if_pos h0]
  · intro hne
    simp only [adjustFull, hf, hq]
    rw [if_pos hlt, if_neg hne]

/-- Witness for claim C4's clamp branch at the 100→40 shrink example. -/
theorem validateCart_clamp_spec_witness :
    (adjustFull [⟨"s", "p", some [⟨"v1", 4⟩], some 40, true, none⟩]
        [mkItem "p-v1" "p" "v1" 25 4 none] (mkItem "p-v1" "p" "v1" 25 4 none)).2.2 =
      some (itemLabel (mkItem "p-v1" "p" "v1" 25 4 none), 25,
        jsFloorDiv (max 0 ((40 : Int) - usedByOthers [mkItem "p-v1" "p" "v1" 25 4 none]
          (mkItem "p-v1" "p" "v1" 25 4 none).productId (mkItem "p-v1" "p" "v1" 25 4 none).id))
          (mkItem "p-v1" "p" "v1" 25 4 none).baseUnits) := by
  have h := (validateCart_clamp_spec.1 [⟨"s", "p", some [⟨"v1", 4⟩], some 40, true, none⟩]
    [mkItem "p-v1" "p" "v1" 25 4 none] (mkItem "p-v1" "p" "v1" 25 4 none)
    ⟨"s", "p", some [⟨"v1", 4⟩], some 40, true, none⟩ 40
    (by decide) rfl (by decide)).2 (by decide)
  rw [h]
  decide

/-- Claim C5 (amended): when a CMS record with the vendor product id
exists, the merged entry takes its editorial fields (name, subtitle,
rich-text description, featured flag, images) and also the CMS-cached
`prices` variant list — not the vendor's live variant list — while the
live inventory always comes from the vendor; with no CMS record the entry
is built from vendor data with the deterministic synthesized id
`square-<vendor id>` and `isFeatured = false`. -/
theorem merge_precedence_spec :
    (∀ (sps : List SanityProduct) (sq : SquareProduct) (sp : SanityProduct),
      sps.reverse.find? (fun p => p.stripeProductId == sq.id) = some sp →
      (mergeSquareProduct sps sq).name = sp.name ∧
      (mergeSquareProduct sps sq).subtitle = sp.subtitle ∧
      (mergeSquareProduct sps sq).description = sp.description ∧
      (mergeSquareProduct sps sq).isFeatured = sp.isFeatured ∧
      (mergeSquareProduct sps sq).prices = sp.prices ∧
      (mergeSquareProduct sps sq).sanityId = sp.sanityId ∧
      (mergeSquareProduct sps sq).invQuantity = sq.invQuantity ∧
      (mergeSquareProduct sps sq).available = sq.available) ∧
    (∀ (sps : List SanityProduct) (sq : SquareProduct),
      sps.reverse.find? (fun p => p.stripeProductId == sq.id) = none →
      (mergeSquareProduct sps sq).sanityId = "square-" ++ sq.id ∧
      (mergeSquareProduct sps sq).isFeatured = false ∧
      (mergeSquareProduct sps sq).name = sq.name ∧
      (mergeSquareProduct sps sq).description = none ∧
      (mergeSquareProduct sps sq).invQuantity = sq.invQuantity ∧
      (mergeSquareProduct sps sq).available = sq.available) := by
  constructor
  · intro sps sq sp h
    simp [mergeSquareProduct, h]
  · intro sps sq h
    simp [mergeSquareProduct, h]

/-- Claim C5, counterexample to "always the vendor's live variant list":
merge a vendor product whose live variants differ from the CMS cache — the
merged entry carries the CMS `prices`, not the vendor's, even though name,
description and inventory behave as claimed. -/
theorem merge_vendor_variant_list_counterexample :
    (mergeSquareProduct [⟨"san1", "sq1", [⟨"vOld", some "4oz", 500, 1⟩], "Y", none, some "D", none, none, true⟩]
        ⟨"sq1", "X", none, [⟨"vNew", some "8oz", 900, 2⟩], [], some 7, true⟩).prices ≠
      (⟨"sq1", "X", none, [⟨"vNew", some "8oz", 900, 2⟩], [], some 7, true⟩ :
        SquareProduct).prices.map (fun p =>
          { priceId := p.variationId, nickname := p.nickname, amount := p.amount, baseUnits := p.baseUnits }) ∧
    (mergeSquareProduct [⟨"san1", "sq1", [⟨"vOld", some "4oz", 500, 1⟩], "Y", none, some "D", none, none, true⟩]
        ⟨"sq1", "X", none, [⟨"vNew", some "8oz", 900, 2⟩], [], some 7, true⟩).name = "Y" ∧
    (mergeSquareProduct [⟨"san1", "sq1", [⟨"vOld", some "4oz", 500, 1⟩], "Y", none, some "D", none, none, true⟩]
        ⟨"sq1", "X", none, [⟨"vNew", some "8oz", 900, 2⟩], [], some 7, true⟩).description = some "D" ∧
    (mergeSquareProduct [⟨"san1", "sq1", [⟨"vOld", some "4oz", 500, 1⟩], "Y", none, some "D", none, none, true⟩]
        ⟨"sq1", "X", none, [⟨"vNew", some "8oz", 900, 2⟩], [], some 7, true⟩).invQuantity = some 7 := by
  refine ⟨by decide, by decide, by decide, by decide⟩

/-- Witness for the amended claim C5 at a concrete CMS/vendor pair. -/
theorem merge_precedence_spec_witness :
    (mergeSquareProduct [⟨"san1", "sq1", [⟨"vOld", some "4oz", 500, 1⟩], "Y", none, some "D", none, none, true⟩]
        ⟨"sq1", "X", none, [⟨"vNew", some "8oz", 900, 2⟩], [], some 7, true⟩).name = "Y" ∧
    (mergeSquareProduct [⟨"san1", "sq1", [⟨"vOld", some "4oz", 500, 1⟩], "Y", none, some "D", none, none, true⟩]
        ⟨"sq1", "X", none, [⟨"vNew", some "8oz", 900, 2⟩], [], some 7, true⟩).invQuantity = some 7 := by
  have h := merge_precedence_spec.1
    [⟨"san1", "sq1", [⟨"vOld", some "4oz", 500, 1⟩], "Y", none, some "D", none, none, true⟩]
    ⟨"sq1", "X", none, [⟨"vNew", some "8oz", 900, 2⟩], [], some 7, true⟩
    ⟨"san1", "sq1", [⟨"vOld", some "4oz", 500, 1⟩], "Y", none, some "D", none, none, true⟩
    (by decide)
  exact ⟨h.1, h.2.2.2.2.2.2.1⟩

/-- Claim C6: at sync time a price variant's base-unit multiplier comes
from the explicit `base_units` metadata whenever it is present (truthy)
and parses to a positive integer; otherwise it is inferred from the
nickname — "8oz" gives 2, "12oz" gives 3, "1 lb" gives 4, "4oz" gives 1 —
defaulting to 1 for unrecognized ("Party Pack") or missing nicknames. -/
theorem base_units_inference_spec :
    (∀ (meta nick : Option String) (s : String) (n : Int), meta = some s → s ≠ "" →
      parseIntJS s = some n → 0 < n → extractBaseUnits meta nick = n) ∧
    extractBaseUnits none (some "8oz") = 2 ∧
    extractBaseUnits none (some "12oz") = 3 ∧
    extractBaseUnits none (some "1 lb") = 4 ∧
    extractBaseUnits none (some "4oz") = 1 ∧
    extractBaseUnits none (some "Party Pack") = 1 ∧
    extractBaseUnits none none = 1 := by
  refine ⟨?_, by decide, by decide, by decide, by decide, by decide, by decide⟩
  intro meta nick s n hm hs hp hn
  subst hm
  simp only [extractBaseUnits]
  rw [if_neg hs, hp]
  simp only [if_pos hn]

/-- Witness for claim C6's metadata clause at `base_units = "3"`. -/
theorem base_units_inference_spec_witness :
    extractBaseUnits (some "3") (some "8oz") = 3 :=
  base_units_inference_spec.1 (some "3") (some "8oz") "3" 3 rfl (by decide) (by decide)
    (by decide)

/-- Claim C7 (amended): the webhook endpoint returns 400 when the
`stripe-signature` header is missing, 500 when the signing secret is
unconfigured, 400 when signature verification fails, and 200 when event
dispatch returns — every handler except the checkout-completed session
re-fetch swallows its own errors — but an error escaping event processing
(reachable exactly when that re-fetch fails) is answered with 500, not
200. -/
theorem webhook_status_spec :
    (∀ (sec : Option String) (v : Bool) (ev : StripeEventType) (sr : Except String Unit),
      webhookPOST none sec v ev sr = 400) ∧
    (∀ (sig : String) (ev : StripeEventType) (sr : Except String Unit) (v : Bool),
      webhookPOST (some sig) none v ev sr = 500) ∧
    (∀ (sig sec : String) (ev : StripeEventType) (sr : Except String Unit),
      webhookPOST (some sig) (some sec) false ev sr = 400) ∧
    (∀ (sig sec : String) (ev : StripeEventType) (sr : Except String Unit),
      processEvent ev sr = Except.ok () →
      webhookPOST (some sig) (some sec) true ev sr = 200) ∧
    (∀ (sig sec : String) (ev : StripeEventType) (sr : Except String Unit) (e : String),
      processEvent ev sr = Except.error e →
      webhookPOST (some sig) (some sec) true ev sr = 500) ∧
    (∀ (ev : StripeEventType) (sr : Except String Unit),
      ev ≠ StripeEventType.checkoutSessionCompleted → processEvent ev sr = Except.ok ()) := by
  refine ⟨fun sec v ev sr => rfl, fun sig ev sr v => rfl, fun sig sec ev sr => rfl, ?_, ?_, ?_⟩
  · intro sig sec ev sr h
    simp [webhookPOST, h]
  · intro sig sec ev sr e h
    simp [webhookPOST, h]
  · intro ev sr h
    cases ev <;> first | rfl | exact absurd rfl h

/-- Claim C7, counterexample to "200 in every other case": a verified
`checkout.session.completed` event whose session re-fetch throws is
answered with 500. -/
theorem webhook_200_counterexample :
    webhookPOST (some "sig") (some "whsec") true StripeEventType.checkoutSessionCompleted
        (Except.error "session fetch failed") = 500 ∧
    webhookPOST (some "sig") (some "whsec") true StripeEventType.checkoutSessionCompleted
        (Except.error "session fetch failed") ≠ 200 := by
  exact ⟨rfl, by decide⟩

/-- Witness for the amended claim C7's 200 clause at a product.updated
event. -/
theorem webhook_status_spec_witness :
    webhookPOST (some "sig") (some "whsec") true StripeEventType.productUpdated
        (Except.ok ()) = 200 :=
  webhook_status_spec.2.2.2.1 "sig" "whsec" StripeEventType.productUpdated (Except.ok ()) rfl

theorem validateCart_removed_eq (ps : List ValProduct) (prev : List CartItem) :
    (validateCart ps prev).removed =
      ((prev.filter (fun c => !(validKeep ps c))).map itemLabel) ++
        (((prev.filter (validKeep ps)).map
          (adjustFull ps (prev.filter (validKeep ps)))).filterMap (fun r => r.2.1)) := rfl

/-- Claim C9: a vendor product whose `stock` metadata field is absent is
reported with inventory quantity `null` and `available = false` — out of
stock, not unlimited — and cart validation removes (and records as
removed) every line of an unavailable product. -/
theorem missing_stock_out_of_stock_spec :
    stripeInventory none = (InvQty.null, false) ∧
    (∀ (ps : List ValProduct) (prev : List CartItem) (c : CartItem) (p : ValProduct),
      c ∈ prev → findProduct ps c.productId = some p → p.available = false →
      itemLabel c ∈ (validateCart ps prev).removed) ∧
    (∀ (ps : List ValProduct) (prev : List CartItem) (i : CartItem) (p : ValProduct),
      i ∈ (validateCart ps prev).items → findProduct ps i.productId = some p →
      p.available = true) := by
  refine ⟨rfl, ?_, ?_⟩
  · intro ps prev c p hc hf hav
    have hkf : validKeep ps c = false := by
      rw [validKeep, hf]
      simp [hav]
    rw [validateCart_removed_eq]
    apply List.mem_append_left
    apply List.mem_map_of_mem itemLabel
    rw [List.mem_filter]
    refine ⟨hc, ?_⟩
    rw [hkf]
    rfl
  · intro ps prev i p hi hf
    rw [validateCart_items_eq] at hi
    obtain ⟨c, hc, hfc⟩ := List.mem_filterMap.mp hi
    have hk : validKeep ps c = true := (List.mem_filter.mp hc).2
    obtain ⟨p', hfp', hb⟩ := validKeep_eq_true.mp hk
    obtain ⟨_, hpid, _, _, _⟩ := adjustFull_fields ps _ hfc
    rw [hpid, hfp'] at hf
    have hpp : p' = p := Option.some.inj hf
    subst hpp
    rw [Bool.and_eq_true] at hb
    exact hb.1

/-- Witness for claim C9's removal clause at a concrete unavailable
product. -/
theorem missing_stock_out_of_stock_spec_witness :
    itemLabel (mkItem "p-v1" "p" "v1" 2 1 none) ∈
      (validateCart [⟨"s", "p", some [⟨"v1", 1⟩], none, false, none⟩]
        [mkItem "p-v1" "p" "v1" 2 1 none]).removed :=
  missing_stock_out_of_stock_spec.2.1
    [⟨"s", "p", some [⟨"v1", 1⟩], none, false, none⟩]
    [mkItem "p-v1" "p" "v1" 2 1 none] (mkItem "p-v1" "p" "v1" 2 1 none)
    ⟨"s", "p", some [⟨"v1", 1⟩], none, false, none⟩
    (by decide) (by decide) rfl

/-- Claim C10: `decrementInventory` derives the multiplier with
`extractBaseUnits`, reads the current stock (0 when the metadata field is
absent), stores `max(0, current - quantity × baseUnits)` — never negative,
even when the decrement exceeds the stock — and returns exactly the stored
value. -/
theorem decrement_inventory_spec :
    (∀ (bm nick : Option String) (q : Int),
      decrementInventory none bm nick q =
        { stored := some (max 0 (0 - q * extractBaseUnits bm nick)),
          returned := some (max 0 (0 - q * extractBaseUnits bm nick)) }) ∧
    (∀ (s : String) (cur : Int) (bm nick : Option String) (q : Int),
      parseIntJS s = some cur →
      decrementInventory (some s) bm nick q =
        { stored := some (max 0 (cur - q * extractBaseUnits bm nick)),
          returned := some (max 0 (cur - q * extractBaseUnits bm nick)) }) ∧
    (∀ (stockMeta bm nick : Option String) (q : Int),
      (decrementInventory stockMeta bm nick q).stored =
        (decrementInventory stockMeta bm nick q).returned) ∧
    (∀ (stockMeta bm nick : Option String) (q n : Int),
      (decrementInventory stockMeta bm nick q).returned = some n → 0 ≤ n) := by
  refine ⟨?_, ?_, ?_, ?_⟩
  · intro bm nick q
    rfl
  · intro s cur bm nick q hp
    simp [decrementInventory, hp]
  · intro stockMeta bm nick q
    rfl
  · intro stockMeta bm nick q n h
    rcases stockMeta with _ | s
    · simp only [decrementInventory, Option.map_some'] at h
      have := Option.some.inj h
      omega
    · rcases hp : parseIntJS s with _ | cur
      · simp only [decrementInventory, hp, Option.map_none'] at h
        exact Option.noConfusion h
      · simp only [decrementInventory, hp, Option.map_some'] at h
        have := Option.some.inj h
        omega

/-- Witness for claim C10's parsed-stock clause: stock "7", one
multiplier-4 purchase of quantity 2 clamps 7 − 8 to 0. -/
theorem decrement_inventory_spec_witness :
    decrementInventory (some "7") none (some "1 lb") 2 =
      { stored := some (max 0 (7 - 2 * extractBaseUnits none (some "1 lb"))),
        returned := some (max 0 (7 - 2 * extractBaseUnits none (some "1 lb"))) } :=
  decrement_inventory_spec.2.1 "7" 7 none (some "1 lb") 2 (by decide)

end ExJerky
